import Mathlib

/-!
# Bicubic Bezier patch of `task1.cpp`: evaluation, tessellation, edit state

Shallow embedding of the patch core of `src/task1.cpp`, and of the textured patch
and the sphere of `src/main.cpp` (namespace `Main`).

Modelling conventions.
* `float` values are elements of an arbitrary linearly ordered field `K`
  (exact arithmetic; rounding, overflow and underflow are not modelled).
  All definitions are computable, e.g. at `K = ℚ`.
* Namespace `Rounded` embeds `B`, `evaluateBezier`, the vertex loops and the move
  statement a second time, with binary32 and binary64 rounding after every
  operation.
* The only way the source can produce a NaN inside the modelled fragment, with
  exact arithmetic, is the division by a zero length in `glm::normalize`.
  Normals therefore live in `FVec K`, a vector or `nan`.
* The square root used by `glm::length` and `glm::normalize` belongs to the
  float library; it is a parameter `sqrt : K → K` of the embedding.
* `int` values that are never negative in the program (loop counters, the
  tessellation level, the selected index, mesh indices) are `Nat`. With the
  level clamped to `[1, 50]` no `int` expression of the fragment overflows.
* `PI`, `cosf` and `sinf` are parameters of `Main.generateSphere`, as `sqrt` is of
  `generatePatch`.
-/

set_option autoImplicit false

namespace BezierPatch

/-! ## Vectors (`glm::vec3`) -/

/-- A `glm::vec3` with exact components. -/
structure Vec3 (K : Type) where
  x : K
  y : K
  z : K
deriving DecidableEq

section VecOps

variable {K : Type} [LinearOrderedField K]

instance : Zero (Vec3 K) := ⟨⟨0, 0, 0⟩⟩

instance : Add (Vec3 K) := ⟨fun a b => ⟨a.x + b.x, a.y + b.y, a.z + b.z⟩⟩

instance : AddCommMonoid (Vec3 K) where
  add_assoc a b c := by
    show Vec3.mk _ _ _ = Vec3.mk _ _ _
    congr 1 <;> exact add_assoc _ _ _
  zero_add a := by
    show Vec3.mk _ _ _ = a
    cases a
    congr 1 <;> exact zero_add _
  add_zero a := by
    show Vec3.mk _ _ _ = a
    cases a
    congr 1 <;> exact add_zero _
  add_comm a b := by
    show Vec3.mk _ _ _ = Vec3.mk _ _ _
    congr 1 <;> exact add_comm _ _
  nsmul := nsmulRec

instance : Sub (Vec3 K) := ⟨fun a b => ⟨a.x - b.x, a.y - b.y, a.z - b.z⟩⟩

instance : SMul K (Vec3 K) := ⟨fun s a => ⟨s * a.x, s * a.y, s * a.z⟩⟩

/-- The product `glm::cross(a, b)`. -/
def cross (a b : Vec3 K) : Vec3 K :=
  ⟨a.y * b.z - b.y * a.z, a.z * b.x - b.z * a.x, a.x * b.y - b.x * a.y⟩

/-- The product `glm::dot(a, b)`. -/
def dot (a b : Vec3 K) : K :=
  a.x * b.x + a.y * b.y + a.z * b.z

/-- The length `glm::length(a) = sqrt(dot(a, a))`. -/
def length (sqrt : K → K) (a : Vec3 K) : K :=
  sqrt (dot a a)

end VecOps

/-! ## Vectors that may be NaN -/

/-- A float vector whose components are either all exact values or all NaN. -/
inductive FVec (K : Type) where
  | nan : FVec K
  | val : Vec3 K → FVec K
deriving DecidableEq

section FVecOps

variable {K : Type} [LinearOrderedField K]

/-- Float addition of vectors: NaN absorbs. -/
def FVec.add : FVec K → FVec K → FVec K
  | FVec.val a, FVec.val b => FVec.val (a + b)
  | _, _ => FVec.nan

instance : Add (FVec K) := ⟨FVec.add⟩

instance : Zero (FVec K) := ⟨FVec.val 0⟩

instance : AddCommMonoid (FVec K) where
  add_assoc a b c := by
    cases a <;> cases b <;> cases c <;> try rfl
    exact congrArg FVec.val (add_assoc _ _ _)
  zero_add a := by
    cases a
    · rfl
    · exact congrArg FVec.val (zero_add _)
  add_zero a := by
    cases a
    · rfl
    · exact congrArg FVec.val (add_zero _)
  add_comm a b := by
    cases a <;> cases b <;> try rfl
    exact congrArg FVec.val (add_comm _ _)
  nsmul := nsmulRec

/-- The function `glm::normalize(v) = v * inversesqrt(dot(v, v))`, where
`inversesqrt(x) = 1 / sqrt(x)`. When the length is zero the factor is `1 / 0 = inf`
and `v` is the zero vector, so every component is `0 * inf`, a NaN. -/
def normalize (sqrt : K → K) (v : Vec3 K) : FVec K :=
  if sqrt (dot v v) = 0 then FVec.nan else FVec.val ((1 / sqrt (dot v v)) • v)

end FVecOps

/-! ## Bernstein basis and patch evaluation -/

/-- The loop `for (int i = 0; i < n; i++) s = body(i, s)`. -/
def forLoop {σ : Type} (body : Nat → σ → σ) : Nat → σ → σ
  | 0, s => s
  | n + 1, s => body n (forLoop body n s)

/-- The table `int C[4] = { 1,3,3,1 }` of `B`. -/
def C : List Nat := [1, 3, 3, 1]

/-- The array `glm::vec3 controlPoints[16]`. -/
abbrev ControlGrid (K : Type) := Fin 16 → Vec3 K

section Eval

variable {K : Type} [LinearOrderedField K]

/-- `float B(int i, float t)`: `C[i] * pow(t, i) * pow(1 - t, n - i)` with `n = 3`.
`pow(x, 0)` is `1` for every `x`, zero included, as is `x ^ 0` here. The source
reads `C[i]` only for `0 ≤ i ≤ 3`; outside that range the read is out of bounds and
the value given here (`0`) is arbitrary. -/
def B (i : Nat) (t : K) : K :=
  (C.getD i 0 : K) * t ^ i * (1 - t) ^ (3 - i)

/-- The read `controlPoints[k]`; `k ≥ 16` is out of bounds in the source and the
value given here (the zero vector) is arbitrary. -/
def ControlGrid.at (cp : ControlGrid K) (k : Nat) : Vec3 K :=
  if h : k < 16 then cp ⟨k, h⟩ else 0

/-- `glm::vec3 evaluateBezier(float u, float v)` over the grid `cp`:
`p = 0; for i < 4, for j < 4: p += B(i, u) * B(j, v) * controlPoints[i * 4 + j]`. -/
def evaluateBezier (cp : ControlGrid K) (u v : K) : Vec3 K :=
  forLoop (fun i p =>
    forLoop (fun j p => p + (B i u * B j v) • cp.at (i * 4 + j)) 4 p) 4 0

end Eval

/-- The initial contents of `controlPoints` (`task1.cpp`, lines 14 to 19). -/
def defaultControlPoints (K : Type) [LinearOrderedField K] : ControlGrid K :=
  ![⟨0.0, 0.0, 0.0⟩, ⟨2.0, 0.0, 1.5⟩, ⟨4.0, 0.0, 2.9⟩, ⟨6.0, 0.0, 0.0⟩,
    ⟨0.0, 2.0, 1.1⟩, ⟨2.0, 2.0, 3.9⟩, ⟨4.0, 2.0, 3.1⟩, ⟨6.0, 2.0, 0.7⟩,
    ⟨0.0, 4.0, -0.5⟩, ⟨2.0, 4.0, 2.6⟩, ⟨4.0, 4.0, 2.4⟩, ⟨6.0, 4.0, 0.4⟩,
    ⟨0.0, 6.0, 0.3⟩, ⟨2.0, 6.0, -1.1⟩, ⟨4.0, 6.0, 1.3⟩, ⟨6.0, 6.0, -0.2⟩]

/-! ## Tessellation (`generatePatch`) -/

/-- The three global vectors `vertices`, `normals`, `indices`. -/
structure Mesh (K : Type) where
  vertices : List (Vec3 K)
  normals : List (FVec K)
  indices : List Nat
deriving DecidableEq

section Tessellation

variable {K : Type} [LinearOrderedField K]

/-- The read `vertices[k]`; past the end the read is out of bounds in the source and
the value given here (the zero vector) is arbitrary. -/
def Mesh.vertex (m : Mesh K) (k : Nat) : Vec3 K :=
  m.vertices.getD k 0

/-- The statement `normals[k] += n`; past the end it is out of bounds in the source
and does nothing here. -/
def Mesh.addNormal (m : Mesh K) (k : Nat) (n : FVec K) : Mesh K :=
  { m with normals := m.normals.set k (m.normals.getD k 0 + n) }

/-- Body of the vertex loops (lines 171 to 173), with `u = i / (float)tessellation`
and `v = j / (float)tessellation`: push the patch point and a zero normal. -/
def pushVertex (cp : ControlGrid K) (N i j : Nat) (m : Mesh K) : Mesh K :=
  { m with
    vertices := m.vertices ++ [evaluateBezier cp ((i : K) / (N : K)) ((j : K) / (N : K))]
    normals := m.normals ++ [FVec.val 0] }

/-- Body of the cell loops (lines 180 to 208): push the six indices of the two
triangles, compute the two face normals, add them to the four corner normals. -/
def cellStep (sqrt : K → K) (N i j : Nat) (m : Mesh K) : Mesh K :=
  let idx := i * (N + 1) + j
  let idxRight := idx + 1
  let idxDown := idx + N + 1
  let idxDiag := idx + N + 2
  let m := { m with
    indices := m.indices ++ [idx, idxRight, idxDown] ++ [idxRight, idxDiag, idxDown] }
  let v1 := m.vertex idxRight - m.vertex idx
  let v2 := m.vertex idxDown - m.vertex idx
  let normal1 := normalize sqrt (cross v1 v2)
  let v3 := m.vertex idxDiag - m.vertex idxRight
  let v4 := m.vertex idxDown - m.vertex idxRight
  let normal2 := normalize sqrt (cross v3 v4)
  let m := m.addNormal idx normal1
  let m := m.addNormal idxRight (normal1 + normal2)
  let m := m.addNormal idxDown (normal1 + normal2)
  m.addNormal idxDiag normal2

/-- Body of the last loop (lines 214 to 216): `if (glm::length(n) > 0.0f)
n = glm::normalize(n)`. The length of a NaN vector is NaN and the comparison is
false, so a NaN normal stays. -/
def finalNormalize (sqrt : K → K) : FVec K → FVec K
  | FVec.nan => FVec.nan
  | FVec.val n => if length sqrt n > 0 then normalize sqrt n else FVec.val n

/-- The state of `generatePatch` at line 211, before the last loop: the three vectors
cleared, the vertex loops, then the cell loops. The level `N` is `tessellation`; the
source is only ever run with `N ≥ 1` (at `N = 0` it divides `0` by `0`, which this
embedding does not follow). -/
def accumulatePatch (sqrt : K → K) (cp : ControlGrid K) (N : Nat) : Mesh K :=
  let m : Mesh K := ⟨[], [], []⟩
  let m := forLoop (fun i m => forLoop (fun j m => pushVertex cp N i j m) (N + 1) m) (N + 1) m
  forLoop (fun i m => forLoop (fun j m => cellStep sqrt N i j m) N m) N m

/-- `void generatePatch()` for the grid `cp` and the level `N`. -/
def generatePatch (sqrt : K → K) (cp : ControlGrid K) (N : Nat) : Mesh K :=
  let m := accumulatePatch sqrt cp N
  { m with normals := m.normals.map (finalNormalize sqrt) }

/-- The index list read three at a time, as `glDrawElements(GL_TRIANGLES, ...)` does. -/
def trianglesOf : List Nat → List (Nat × Nat × Nat)
  | a :: b :: c :: rest => (a, b, c) :: trianglesOf rest
  | _ => []

/-- Whether the triangle `t` has `k` among its three indices. -/
def hasVertex (k : Nat) (t : Nat × Nat × Nat) : Bool :=
  k == t.1 || k == t.2.1 || k == t.2.2

/-- The face normal of the triangle `(a, b, c)` over the vertices of `m`:
`normalize(cross(vertices[b] - vertices[a], vertices[c] - vertices[a]))`. -/
def faceNormal (sqrt : K → K) (m : Mesh K) (t : Nat × Nat × Nat) : FVec K :=
  normalize sqrt (cross (m.vertex t.2.1 - m.vertex t.1) (m.vertex t.2.2 - m.vertex t.1))

/-- The sum of the face normals of the triangles of the index list of `m` that have
`k` among their indices, each triangle of the list counted once. -/
def adjacentNormalSum (sqrt : K → K) (m : Mesh K) (k : Nat) : FVec K :=
  (((trianglesOf m.indices).filter (hasVertex k)).map (faceNormal sqrt m)).sum

end Tessellation

/-! ## Edit state and the frame step (`processInput`) -/

/-- The globals of the patch editor, and the four key latches that are `static` in
`processInput`. The camera and the OpenGL objects are left out. -/
structure PatchState (K : Type) where
  controlPoints : ControlGrid K
  tessellation : Nat
  selectedPoint : Nat
  needsUpdate : Bool
  mesh : Mesh K
  leftPressedLast : Bool
  rightPressedLast : Bool
  plusPressedLast : Bool
  minusPressedLast : Bool

/-- The keys read by `processInput` through `glfwGetKey`: `true` is `GLFW_PRESS`,
`false` is `GLFW_RELEASE`. -/
structure Keys where
  left : Bool
  right : Bool
  keyI : Bool
  keyK : Bool
  keyJ : Bool
  keyL : Bool
  keyU : Bool
  keyO : Bool
  equal : Bool
  minus : Bool

/-- A coordinate axis of a control point. -/
inductive Axis where
  | x : Axis
  | y : Axis
  | z : Axis
deriving DecidableEq

section Editor

variable {K : Type} [LinearOrderedField K]

/-- The statement `p.<axis> += delta` on a vector. -/
def Vec3.bump (a : Axis) (delta : K) (p : Vec3 K) : Vec3 K :=
  match a with
  | Axis.x => { p with x := p.x + delta }
  | Axis.y => { p with y := p.y + delta }
  | Axis.z => { p with z := p.z + delta }

/-- The coordinate `p.<axis>` of a vector. -/
def Vec3.coord (a : Axis) (p : Vec3 K) : K :=
  match a with
  | Axis.x => p.x
  | Axis.y => p.y
  | Axis.z => p.z

/-- The statement `controlPoints[selectedPoint].<axis> += delta` (lines 353 to 358);
with `selectedPoint ≥ 16` the write is out of bounds in the source and does nothing
here. -/
def translateSelected (a : Axis) (delta : K) (s : PatchState K) : PatchState K :=
  { s with controlPoints := fun k =>
      if k.val = s.selectedPoint then (s.controlPoints k).bump a delta
      else s.controlPoints k }

/-- One move command: `controlPoints[selectedPoint].<axis> += delta; pointMoved = true;`
followed by line 360, `if (pointMoved) needsUpdate = true;`. The source issues it with
`delta = moveStep` or `delta = -moveStep`. -/
def moveSelected (a : Axis) (delta : K) (s : PatchState K) : PatchState K :=
  { translateSelected a delta s with needsUpdate := true }

/-- Lines 336 to 341: the left arrow, edge-triggered. -/
def selectPrevious (key : Bool) (s : PatchState K) : PatchState K :=
  if key && !s.leftPressedLast then
    { s with selectedPoint := (s.selectedPoint + 15) % 16, needsUpdate := true,
             leftPressedLast := true }
  else if !key then { s with leftPressedLast := false }
  else s

/-- Lines 343 to 348: the right arrow, edge-triggered. -/
def selectNext (key : Bool) (s : PatchState K) : PatchState K :=
  if key && !s.rightPressedLast then
    { s with selectedPoint := (s.selectedPoint + 1) % 16, needsUpdate := true,
             rightPressedLast := true }
  else if !key then { s with rightPressedLast := false }
  else s

/-- Lines 351 to 360: the six move keys, each `moveStep = 0.1f` along its axis, then
`if (pointMoved) needsUpdate = true`. -/
def movePoint (keys : Keys) (s : PatchState K) : PatchState K :=
  let moveStep : K := 0.1
  let s1 := if keys.keyI then translateSelected Axis.y moveStep s else s
  let s2 := if keys.keyK then translateSelected Axis.y (-moveStep) s1 else s1
  let s3 := if keys.keyJ then translateSelected Axis.x (-moveStep) s2 else s2
  let s4 := if keys.keyL then translateSelected Axis.x moveStep s3 else s3
  let s5 := if keys.keyU then translateSelected Axis.z moveStep s4 else s4
  let s6 := if keys.keyO then translateSelected Axis.z (-moveStep) s5 else s5
  let pointMoved :=
    keys.keyI || keys.keyK || keys.keyJ || keys.keyL || keys.keyU || keys.keyO
  if pointMoved then { s6 with needsUpdate := true } else s6

/-- Lines 364 to 369: the `=` key, edge-triggered. -/
def tessellationUp (key : Bool) (s : PatchState K) : PatchState K :=
  if key && !s.plusPressedLast then
    { s with tessellation := min (s.tessellation + 1) 50, needsUpdate := true,
             plusPressedLast := true }
  else if !key then { s with plusPressedLast := false }
  else s

/-- Lines 371 to 376: the `-` key, edge-triggered. On `Nat`, `tessellation - 1` stops
at `0`, and `max (tessellation - 1) 1` agrees with `std::max(tessellation - 1, 1)` on
`int` for every level `≥ 0`. -/
def tessellationDown (key : Bool) (s : PatchState K) : PatchState K :=
  if key && !s.minusPressedLast then
    { s with tessellation := max (s.tessellation - 1) 1, needsUpdate := true,
             minusPressedLast := true }
  else if !key then { s with minusPressedLast := false }
  else s

/-- Lines 379 to 388: `if (needsUpdate) { ...; generatePatch(); ...; needsUpdate =
false; }`. The two buffer uploads copy the state to OpenGL and change none of it. -/
def commitIfDirty (sqrt : K → K) (s : PatchState K) : PatchState K :=
  if s.needsUpdate then
    { s with mesh := generatePatch sqrt s.controlPoints s.tessellation,
             needsUpdate := false }
  else s

/-- `void processInput(GLFWwindow*)`, from line 334 on (the camera keys above act on
the camera only). -/
def processInput (sqrt : K → K) (keys : Keys) (s : PatchState K) : PatchState K :=
  let s := selectPrevious keys.left s
  let s := selectNext keys.right s
  let s := movePoint keys s
  let s := tessellationUp keys.equal s
  let s := tessellationDown keys.minus s
  commitIfDirty sqrt s

/-- The globals at program start (lines 14 to 24 and 36 to 38), before `main` runs
`generatePatch()`. -/
def initialState (K : Type) [LinearOrderedField K] : PatchState K :=
  { controlPoints := defaultControlPoints K, tessellation := 10, selectedPoint := 0,
    needsUpdate := true, mesh := ⟨[], [], []⟩, leftPressedLast := false,
    rightPressedLast := false, plusPressedLast := false, minusPressedLast := false }

/-- The state at line 378 of `processInput`: all keys handled, the update block not yet
run. -/
def frameInput (keys : Keys) (s : PatchState K) : PatchState K :=
  tessellationDown keys.minus (tessellationUp keys.equal (movePoint keys
    (selectNext keys.right (selectPrevious keys.left s))))

/-- The number of calls of `generatePatch()` made by one run of `processInput`: the
only call is line 384, inside `if (needsUpdate)`. -/
def generatePatchCalls (keys : Keys) (s : PatchState K) : Nat :=
  if (frameInput keys s).needsUpdate then 1 else 0

/-- The state when `main` enters its loop (lines 77 to 81): the globals at program
start, with the mesh built by the call `generatePatch()` of line 78; `needsUpdate` is
still `true`. -/
def startState (sqrt : K → K) : PatchState K :=
  { initialState K with
    mesh := generatePatch sqrt (initialState K).controlPoints (initialState K).tessellation }

/-- The states of the program at the top of the main loop: the start state, and the
state after each run of `processInput`, whatever the keys. -/
inductive Reachable (sqrt : K → K) : PatchState K → Prop where
  | start : Reachable sqrt (startState sqrt)
  | frame (keys : Keys) (s : PatchState K) :
      Reachable sqrt s → Reachable sqrt (processInput sqrt keys s)

/-- The states the commands of `processInput` can produce, one command at a time: from
the globals at program start (before or after the `generatePatch()` of line 78), any
arrow, move or tessellation handler with any keys, and the update block. Every state
met inside a run of `processInput` is of this kind. -/
inductive CommandReachable (sqrt : K → K) : PatchState K → Prop where
  | init : CommandReachable sqrt (initialState K)
  | start : CommandReachable sqrt (startState sqrt)
  | selectPrevious (key : Bool) (s : PatchState K) :
      CommandReachable sqrt s → CommandReachable sqrt (selectPrevious key s)
  | selectNext (key : Bool) (s : PatchState K) :
      CommandReachable sqrt s → CommandReachable sqrt (selectNext key s)
  | movePoint (keys : Keys) (s : PatchState K) :
      CommandReachable sqrt s → CommandReachable sqrt (movePoint keys s)
  | tessellationUp (key : Bool) (s : PatchState K) :
      CommandReachable sqrt s → CommandReachable sqrt (tessellationUp key s)
  | tessellationDown (key : Bool) (s : PatchState K) :
      CommandReachable sqrt s → CommandReachable sqrt (tessellationDown key s)
  | commit (s : PatchState K) :
      CommandReachable sqrt s → CommandReachable sqrt (commitIfDirty sqrt s)

end Editor

/-- No key down. -/
def noKeys : Keys :=
  { left := false, right := false, keyI := false, keyK := false, keyJ := false,
    keyL := false, keyU := false, keyO := false, equal := false, minus := false }

/-! ## The textured patch and the sphere (`main.cpp`) -/

/-- The fields of `struct TexturedBezierPatch` that `generateTexturedBezierPatch` reads
or writes; a `glm::vec2` is a pair. -/
structure TexturedBezierPatch (K : Type) where
  vertices : List (Vec3 K)
  texCoords : List (K × K)
  indices : List Nat
  tessellation : Nat

/-- The fields of `struct GameObject` that `generateSphere` writes. -/
structure GameObject (K : Type) where
  vertices : List (Vec3 K)
  indices : List Nat

namespace Main

/-- The table `int C[4] = { 1, 3, 3, 1 }` of `B` in `main.cpp`. -/
def C : List Nat := [1, 3, 3, 1]

section MainDefs

variable {K : Type} [LinearOrderedField K]

/-- `float B(int i, float t)` of `main.cpp` (lines 394 to 398):
`(float)C[i] * powf(t, (float)i) * powf(1.0f - t, (float)(n - i))` with `n = 3`; `powf`
with a whole exponent `k ≥ 0` is the `k`-th power, `1` at `k = 0`. Reads `C[i]` only for
`0 ≤ i ≤ 3`; outside, the value given here (`0`) is arbitrary. -/
def B (i : Nat) (t : K) : K :=
  (C.getD i 0 : K) * t ^ i * (1 - t) ^ (3 - i)

/-- `glm::vec3 evaluateBezier(float u, float v)` of `main.cpp` (lines 400 to 406), over
the grid `cp`. -/
def evaluateBezier (cp : ControlGrid K) (u v : K) : Vec3 K :=
  forLoop (fun i p =>
    forLoop (fun j p => p + (B i u * B j v) • cp.at (i * 4 + j)) 4 p) 4 0

/-- Body of the vertex loops of `generateTexturedBezierPatch` (lines 512 to 516). -/
def pushTexturedVertex (cp : ControlGrid K) (i j : Nat) (patch : TexturedBezierPatch K) :
    TexturedBezierPatch K :=
  let u := (i : K) / (patch.tessellation : K)
  let v := (j : K) / (patch.tessellation : K)
  { patch with
    vertices := patch.vertices ++ [evaluateBezier cp u v]
    texCoords := patch.texCoords ++ [(u, v)] }

/-- Body of the index loops of `generateTexturedBezierPatch` (lines 523 to 534). -/
def pushCellIndices (i j : Nat) (patch : TexturedBezierPatch K) : TexturedBezierPatch K :=
  let idx := i * (patch.tessellation + 1) + j
  let idxRight := idx + 1
  let idxDown := idx + patch.tessellation + 1
  let idxDiag := idx + patch.tessellation + 2
  { patch with
    indices := patch.indices ++ [idx, idxRight, idxDown] ++ [idxRight, idxDiag, idxDown] }

/-- `void generateTexturedBezierPatch(TexturedBezierPatch& patch)` (lines 505 to 537),
reading the global grid `cp`. -/
def generateTexturedBezierPatch (cp : ControlGrid K) (patch : TexturedBezierPatch K) :
    TexturedBezierPatch K :=
  let patch := { patch with vertices := [], texCoords := [], indices := [] }
  let patch := forLoop (fun i p =>
    forLoop (fun j p => pushTexturedVertex cp i j p) (p.tessellation + 1) p)
    (patch.tessellation + 1) patch
  forLoop (fun i p => forLoop (fun j p => pushCellIndices i j p) p.tessellation p)
    patch.tessellation patch

/-- Body of the inner vertex loop of `generateSphere` (lines 430 to 433). -/
def pushSphereVertex (cosf sinf : K → K) (sectorStep xy z : K) (j : Nat)
    (obj : GameObject K) : GameObject K :=
  let sectorAngle := (j : K) * sectorStep
  let x := xy * cosf sectorAngle
  let y := xy * sinf sectorAngle
  { obj with vertices := obj.vertices ++ [⟨x, y, z⟩] }

/-- Body of the outer vertex loop of `generateSphere` (lines 424 to 435). -/
def sphereStackVertices (pi : K) (cosf sinf : K → K) (radius sectorStep stackStep : K)
    (sectors i : Nat) (obj : GameObject K) : GameObject K :=
  let stackAngle := pi / 2 - (i : K) * stackStep
  let xy := radius * cosf stackAngle
  let z := radius * sinf stackAngle
  forLoop (fun j obj => pushSphereVertex cosf sinf sectorStep xy z j obj) (sectors + 1) obj

/-- Body of the inner index loop of `generateSphere` (lines 441 to 452) on the loop
state `(obj, k1, k2)`, with the `++k1, ++k2` of the loop header at the end. -/
def sphereSectorStep (numStacks i : Nat) (st : GameObject K × Nat × Nat) :
    GameObject K × Nat × Nat :=
  let obj := st.1
  let k1 := st.2.1
  let k2 := st.2.2
  let obj := if i ≠ 0 then { obj with indices := obj.indices ++ [k1, k2, k1 + 1] } else obj
  let obj := if i ≠ numStacks - 1 then
      { obj with indices := obj.indices ++ [k1 + 1, k2, k2 + 1] }
    else obj
  (obj, k1 + 1, k2 + 1)

/-- Body of the outer index loop of `generateSphere` (lines 437 to 453). -/
def sphereStackIndices (sectors numStacks i : Nat) (obj : GameObject K) : GameObject K :=
  let k1 := i * (sectors + 1)
  let k2 := k1 + sectors + 1
  (forLoop (fun _ st => sphereSectorStep numStacks i st) sectors (obj, k1, k2)).1

/-- `void generateSphere(GameObject& obj, float radius, int sectors, int stacks)` (lines
417 to 454); `numStacks` is the parameter `stacks`. The constant `PI` and the functions
`cosf`, `sinf` of the float library are parameters. -/
def generateSphere (pi : K) (cosf sinf : K → K) (obj : GameObject K) (radius : K)
    (sectors numStacks : Nat) : GameObject K :=
  let obj := { obj with vertices := [], indices := [] }
  let sectorStep := (2 * pi) / (sectors : K)
  let stackStep := pi / (numStacks : K)
  let obj := forLoop (fun i obj =>
    sphereStackVertices pi cosf sinf radius sectorStep stackStep sectors i obj)
    (numStacks + 1) obj
  forLoop (fun i obj => sphereStackIndices sectors numStacks i obj) numStacks obj

end MainDefs

end Main

/-! ## Binary32 and binary64 rounding

The definitions above compute in exact arithmetic. Namespace `Rounded` embeds the
same source lines once more, over `ℚ`, with every `float` and `double` operation
followed by its rounding. It is used to decide which statements about the exact
functions are also statements about the values the program computes.

Conventions of the rounded embedding.
* A `float` or `double` value is the rational it denotes. Rounding is to nearest,
  ties to even, to 24 (`float`) or 53 (`double`) significant bits. The exponent range
  is not bounded: the result is that of IEEE 754 whenever it is a normal number, which
  holds for every value evaluated in the theorems of this file.
* `pow` and `powf` with a whole exponent return the correctly rounded power.
* A product and the sum that follows it are two operations, each rounded (no fused
  multiply-add).
-/

/-- Power of two `2 ^ e` with an integer exponent. -/
def pow2 (e : Int) : ℚ :=
  if 0 ≤ e then ((2 ^ e.toNat : Nat) : ℚ) else 1 / ((2 ^ (-e).toNat : Nat) : ℚ)

/-- Number of halvings of `n` that reach `1`, at most `fuel` of them. -/
def log2Fuel : Nat → Nat → Nat
  | 0, _ => 0
  | fuel + 1, n => if n < 2 then 0 else log2Fuel fuel (n / 2) + 1

/-- The integer binary logarithm `⌊log₂ n⌋` of `n ≥ 1`, and `0` at `n = 0`. -/
def ilog2 (n : Nat) : Nat :=
  log2Fuel n n

/-- Round `x` to the nearest number with `p` significant bits, ties to even: with
`2 ^ e ≤ |x| < 2 ^ (e + 1)` the result is a whole multiple of `2 ^ (e - (p - 1))`. -/
def roundBits (p : Nat) (x : ℚ) : ℚ :=
  if x = 0 then 0 else
    let e0 : Int := (ilog2 x.num.natAbs : Int) - (ilog2 x.den : Int)
    let e : Int := if pow2 e0 ≤ |x| then e0 else e0 - 1
    let ulp : ℚ := pow2 (e - ((p : Int) - 1))
    let q : ℚ := |x| / ulp
    let f : Int := q.floor
    let r : ℚ := q - f
    let m : Int := if r < 1 / 2 then f else if 1 / 2 < r then f + 1
      else if f % 2 = 0 then f else f + 1
    (if x < 0 then -1 else 1) * (m : ℚ) * ulp

/-- Rounding to `float` (binary32, 24 significant bits). -/
def f32 (x : ℚ) : ℚ :=
  roundBits 24 x

/-- Rounding to `double` (binary64, 53 significant bits). -/
def f64 (x : ℚ) : ℚ :=
  roundBits 53 x

namespace Rounded

/-- `float B(int i, float t)` of `task1.cpp` (lines 146 to 150) as compiled:
`1 - t` is a `float` subtraction; `pow(float, int)` converts both arguments to
`double` and returns a `double`; `C[i] * pow(t, i) * pow(1 - t, n - i)` is two `double`
products; the `return` converts to `float`. -/
def B (i : Nat) (t : ℚ) : ℚ :=
  f32 (f64 (f64 ((C.getD i 0 : ℚ) * f64 (t ^ i)) * f64 (f32 (1 - t) ^ (3 - i))))

/-- The statement `p += w * c` on `glm::vec3` with a `float` factor `w`: in each
coordinate a `float` product, then a `float` sum. -/
def addScaled (p : Vec3 ℚ) (w : ℚ) (c : Vec3 ℚ) : Vec3 ℚ :=
  ⟨f32 (p.x + f32 (w * c.x)), f32 (p.y + f32 (w * c.y)), f32 (p.z + f32 (w * c.z))⟩

/-- `glm::vec3 evaluateBezier(float u, float v)` of `task1.cpp` (lines 153 to 159):
`p += B(i, u) * B(j, v) * controlPoints[i * 4 + j]`, the `float` product
`B(i, u) * B(j, v)` first. -/
def evaluateBezier (cp : ControlGrid ℚ) (u v : ℚ) : Vec3 ℚ :=
  forLoop (fun i p =>
    forLoop (fun j p => addScaled p (f32 (B i u * B j v)) (cp.at (i * 4 + j))) 4 p) 4 0

/-- The initial contents of `controlPoints` in `task1.cpp` (lines 14 to 19): `double`
literals, each converted to `float`. -/
def controlPoints : ControlGrid ℚ := fun k =>
  ⟨f32 (f64 (defaultControlPoints ℚ k).x), f32 (f64 (defaultControlPoints ℚ k).y),
    f32 (f64 (defaultControlPoints ℚ k).z)⟩

/-- The vertex loops of `generatePatch` (lines 168 to 175): the list `vertices`, with
`u = i / (float)tessellation` and `v = j / (float)tessellation` as `float` quotients. -/
def patchVertices (cp : ControlGrid ℚ) (N : Nat) : List (Vec3 ℚ) :=
  forLoop (fun i vs =>
    forLoop (fun j vs =>
      vs ++ [evaluateBezier cp (f32 (f32 (i : ℚ) / f32 (N : ℚ))) (f32 (f32 (j : ℚ) / f32 (N : ℚ)))])
      (N + 1) vs) (N + 1) []

/-- The constant `float moveStep = 0.1f` (line 351). -/
def moveStep : ℚ :=
  f32 (1 / 10)

/-- The statement `p.<axis> += delta` on a vector, as a `float` sum. -/
def bump (a : Axis) (delta : ℚ) (p : Vec3 ℚ) : Vec3 ℚ :=
  match a with
  | Axis.x => { p with x := f32 (p.x + delta) }
  | Axis.y => { p with y := f32 (p.y + delta) }
  | Axis.z => { p with z := f32 (p.z + delta) }

/-- The statement `controlPoints[selectedPoint].<axis> += delta` (lines 353 to 358)
on the grid `cp`. -/
def translateSelected (a : Axis) (delta : ℚ) (selectedPoint : Nat) (cp : ControlGrid ℚ) :
    ControlGrid ℚ := fun k =>
  if k.val = selectedPoint then bump a delta (cp k) else cp k

namespace Main

/-- `float B(int i, float t)` of `main.cpp` (lines 394 to 398): the subtraction, both
`powf` and both products are `float` operations. -/
def B (i : Nat) (t : ℚ) : ℚ :=
  f32 (f32 (f32 (BezierPatch.Main.C.getD i 0 : ℚ) * f32 (t ^ i)) * f32 (f32 (1 - t) ^ (3 - i)))

/-- `glm::vec3 evaluateBezier(float u, float v)` of `main.cpp` (lines 400 to 406). -/
def evaluateBezier (cp : ControlGrid ℚ) (u v : ℚ) : Vec3 ℚ :=
  forLoop (fun i p =>
    forLoop (fun j p => addScaled p (f32 (B i u * B j v)) (cp.at (i * 4 + j))) 4 p) 4 0

/-- The initial contents of `controlPoints` in `main.cpp` (lines 145 to 150): `float`
literals. -/
def controlPoints : ControlGrid ℚ := fun k =>
  ⟨f32 (defaultControlPoints ℚ k).x, f32 (defaultControlPoints ℚ k).y,
    f32 (defaultControlPoints ℚ k).z⟩

/-- The vertex loops of `generateTexturedBezierPatch` (lines 511 to 518): the list
`patch.vertices`, with `u` and `v` the `float` quotients of line 512 and line 514. -/
def patchVertices (cp : ControlGrid ℚ) (N : Nat) : List (Vec3 ℚ) :=
  forLoop (fun i vs =>
    forLoop (fun j vs =>
      vs ++ [evaluateBezier cp (f32 (f32 (i : ℚ) / f32 (N : ℚ))) (f32 (f32 (j : ℚ) / f32 (N : ℚ)))])
      (N + 1) vs) (N + 1) []

end Main

end Rounded

/-! ## Specification helpers -/

/-- The indices that `generateSphere` pushes for sector `j` of stack `i`. -/
def sphereCellIndices (sectors numStacks i j : Nat) : List Nat :=
  (if i ≠ 0 then
      [i * (sectors + 1) + j, i * (sectors + 1) + j + sectors + 1, i * (sectors + 1) + j + 1]
    else [])
  ++ (if i ≠ numStacks - 1 then
      [i * (sectors + 1) + j + 1, i * (sectors + 1) + j + sectors + 1,
       i * (sectors + 1) + j + sectors + 1 + 1]
    else [])

/-- The two triangles of cell `(i, j)` at level `N`, as the spec lists them:
`(idx, idxRight, idxDown)` and `(idxRight, idxDiag, idxDown)`. -/
def cellTriangles (N i j : Nat) : List (Nat × Nat × Nat) :=
  [(i * (N + 1) + j, i * (N + 1) + j + 1, i * (N + 1) + j + N + 1),
   (i * (N + 1) + j + 1, i * (N + 1) + j + N + 2, i * (N + 1) + j + N + 1)]

/-- Row of the mesh index `k` in the `(N+1) x (N+1)` parameter grid: `k = i*(N+1)+j`
has row `i`. -/
def gridRow (N k : Nat) : Int :=
  ((k / (N + 1) : Nat) : Int)

/-- Column of the mesh index `k` in the parameter grid: `k = i*(N+1)+j` has column
`j`. -/
def gridCol (N k : Nat) : Int :=
  ((k % (N + 1) : Nat) : Int)

/-- Twice the signed area of the triangle `(p, q, r)`, from the integer grid coordinates
(row, column) of its three indices, in the order given. -/
def signedArea2 (N : Nat) (t : Nat × Nat × Nat) : Int :=
  (gridRow N t.2.1 - gridRow N t.1) * (gridCol N t.2.2 - gridCol N t.1)
    - (gridCol N t.2.1 - gridCol N t.1) * (gridRow N t.2.2 - gridRow N t.1)

/-- The mesh of `s` is not stale: either an update is pending, or the mesh is the
tessellation of the control grid of `s` at the level of `s`. -/
def MeshCurrent {K : Type} [LinearOrderedField K] (sqrt : K → K) (s : PatchState K) : Prop :=
  s.needsUpdate = true ∨ s.mesh = generatePatch sqrt s.controlPoints s.tessellation

/-- The list `g 0 ++ g 1 ++ ... ++ g (n - 1)`. -/
def blocks {α : Type} (g : Nat → List α) : Nat → List α
  | 0 => []
  | n + 1 => blocks g n ++ g n

/-- The six indices of cell `(i, j)` at level `N`, as the spec lists them. -/
def cellIndices (N i j : Nat) : List Nat :=
  [i * (N + 1) + j, i * (N + 1) + j + 1, i * (N + 1) + j + N + 1,
   i * (N + 1) + j + 1, i * (N + 1) + j + N + 2, i * (N + 1) + j + N + 1]

/-- The invariant of the cell loops of `generatePatch`: the vertices are `V`, there
are `L` normals, the index list is a whole number of triangles, and every normal is
the sum of the face normals of the triangles emitted so far that touch it. -/
def CellInv {K : Type} [LinearOrderedField K] (sqrt : K → K) (V : List (Vec3 K)) (L : Nat)
    (m : Mesh K) : Prop :=
  m.vertices = V ∧ m.normals.length = L ∧ (∃ t, m.indices.length = 3 * t)
    ∧ ∀ q, q < L → m.normals.getD q 0 = adjacentNormalSum sqrt m q

/-! ## Theorems -/

theorem Vec3.ext3 {K : Type} {a b : Vec3 K} (hx : a.x = b.x) (hy : a.y = b.y)
    (hz : a.z = b.z) : a = b := by
  cases a; cases b; simp_all

section Lemmas

variable {K : Type} [LinearOrderedField K]

@[simp]
theorem Vec3.add_x (a b : Vec3 K) : (a + b).x = a.x + b.x := rfl

@[simp]
theorem Vec3.add_y (a b : Vec3 K) : (a + b).y = a.y + b.y := rfl

@[simp]
theorem Vec3.add_z (a b : Vec3 K) : (a + b).z = a.z + b.z := rfl

@[simp]
theorem Vec3.sub_x (a b : Vec3 K) : (a - b).x = a.x - b.x := rfl

@[simp]
theorem Vec3.sub_y (a b : Vec3 K) : (a - b).y = a.y - b.y := rfl

@[simp]
theorem Vec3.sub_z (a b : Vec3 K) : (a - b).z = a.z - b.z := rfl

@[simp]
theorem Vec3.smul_x (s : K) (a : Vec3 K) : (s • a).x = s * a.x := rfl

@[simp]
theorem Vec3.smul_y (s : K) (a : Vec3 K) : (s • a).y = s * a.y := rfl

@[simp]
theorem Vec3.smul_z (s : K) (a : Vec3 K) : (s • a).z = s * a.z := rfl

@[simp]
theorem Vec3.zero_x : (0 : Vec3 K).x = 0 := rfl

@[simp]
theorem Vec3.zero_y : (0 : Vec3 K).y = 0 := rfl

@[simp]
theorem Vec3.zero_z : (0 : Vec3 K).z = 0 := rfl

/-- The four Bernstein values in closed form. -/
theorem B_zero (t : K) : B 0 t = (1 - t) ^ 3 := by
  simp [B, C]

theorem B_one (t : K) : B 1 t = 3 * t * (1 - t) ^ 2 := by
  simp [B, C]

theorem B_two (t : K) : B 2 t = 3 * t ^ 2 * (1 - t) := by
  simp [B, C]

theorem B_three (t : K) : B 3 t = t ^ 3 := by
  simp [B, C]

/-- The two nested loops of `evaluateBezier`, unrolled. -/
theorem evaluateBezier_unroll (cp : ControlGrid K) (u v : K) :
    evaluateBezier cp u v =
      0 + (B 0 u * B 0 v) • cp 0 + (B 0 u * B 1 v) • cp 1 + (B 0 u * B 2 v) • cp 2
        + (B 0 u * B 3 v) • cp 3 + (B 1 u * B 0 v) • cp 4 + (B 1 u * B 1 v) • cp 5
        + (B 1 u * B 2 v) • cp 6 + (B 1 u * B 3 v) • cp 7 + (B 2 u * B 0 v) • cp 8
        + (B 2 u * B 1 v) • cp 9 + (B 2 u * B 2 v) • cp 10 + (B 2 u * B 3 v) • cp 11
        + (B 3 u * B 0 v) • cp 12 + (B 3 u * B 1 v) • cp 13 + (B 3 u * B 2 v) • cp 14
        + (B 3 u * B 3 v) • cp 15 := by
  simp only [evaluateBezier, forLoop, ControlGrid.at]
  rfl

/-- C1. `evaluateBezier(u, v)` is the tensor-product sum over `i, j` in `0..3` of
`B(i, u) * B(j, v) * controlPoints[i * 4 + j]`: the row index `i` goes with `u`, the
column index `j` with `v`. -/
theorem evaluateBezier_eq_sum (cp : ControlGrid K) (u v : K) :
    evaluateBezier cp u v =
      ∑ i : Fin 4, ∑ j : Fin 4,
        (B i.val u * B j.val v) • cp ⟨i.val * 4 + j.val, by omega⟩ := by
  have h3 : (3 : Fin 4).val = 3 := rfl
  rw [evaluateBezier_unroll]
  simp only [Fin.sum_univ_four, Fin.val_zero, Fin.val_one, Fin.val_two, h3]
  apply Vec3.ext3 <;> simp <;> ring

/-- C2. For `i = 0, 1, 2, 3`, `B(i, t) = C(3, i) * t^i * (1 - t)^(3 - i)`, with the
closed forms `(1-t)^3`, `3t(1-t)^2`, `3t^2(1-t)`, `t^3`; at `t = 0` and `t = 1` the
power `0^0` counts as `1`. -/
theorem B_eq_bernstein (t : K) :
    (∀ i : Fin 4, B i.val t = (Nat.choose 3 i.val : K) * t ^ i.val * (1 - t) ^ (3 - i.val))
    ∧ (∀ i : Fin 4, C.getD i.val 0 = Nat.choose 3 i.val)
    ∧ B 0 t = (1 - t) ^ 3 ∧ B 1 t = 3 * t * (1 - t) ^ 2
    ∧ B 2 t = 3 * t ^ 2 * (1 - t) ∧ B 3 t = t ^ 3
    ∧ B 0 (0 : K) = 1 ∧ B 1 (0 : K) = 0 ∧ B 2 (0 : K) = 0 ∧ B 3 (0 : K) = 0
    ∧ B 0 (1 : K) = 0 ∧ B 1 (1 : K) = 0 ∧ B 2 (1 : K) = 0 ∧ B 3 (1 : K) = 1 := by
  refine ⟨?_, ?_, B_zero t, B_one t, B_two t, B_three t, ?_, ?_, ?_, ?_, ?_, ?_, ?_, ?_⟩
  · intro i
    fin_cases i <;> simp [B, C, Nat.choose]
  · intro i
    fin_cases i <;> simp [C, Nat.choose]
  all_goals simp [B, C]

/-- C3. Partition of unity: for all `u, v` (in particular on the unit square) the
sixteen products `B(i, u) * B(j, v)` sum to `1`, and for all `t` the four values
`B(0, t), ..., B(3, t)` sum to `1`. -/
theorem B_partition_of_unity (u v t : K) :
    (∑ i in Finset.range 4, ∑ j in Finset.range 4, B i u * B j v) = 1
    ∧ (∑ i in Finset.range 4, B i t) = 1 := by
  constructor
  · simp only [Finset.sum_range_succ, Finset.sum_range_zero, B_zero, B_one, B_two, B_three]
    ring
  · simp only [Finset.sum_range_succ, Finset.sum_range_zero, B_zero, B_one, B_two, B_three]
    ring

/-! ### Loops that append -/

omit [LinearOrderedField K] in
theorem forLoop_proj_const {σ β : Type} (proj : σ → β) (body : Nat → σ → σ)
    (h : ∀ k s, proj (body k s) = proj s) (n : Nat) (s : σ) :
    proj (forLoop body n s) = proj s := by
  induction n with
  | zero => rfl
  | succ n ih => rw [forLoop, h, ih]

omit [LinearOrderedField K] in
theorem forLoop_proj_append {σ α : Type} (proj : σ → List α) (body : Nat → σ → σ)
    (g : Nat → List α) (h : ∀ k s, proj (body k s) = proj s ++ g k) (n : Nat) (s : σ) :
    proj (forLoop body n s) = proj s ++ blocks g n := by
  induction n with
  | zero => simp [forLoop, blocks]
  | succ n ih => rw [forLoop, h, ih, blocks, List.append_assoc]

omit [LinearOrderedField K] in
theorem forLoop_invariant {σ : Type} (P : Nat → σ → Prop) (body : Nat → σ → σ) (n : Nat)
    (s : σ) (h0 : P 0 s) (hstep : ∀ k, k < n → ∀ t, P k t → P (k + 1) (body k t)) :
    P n (forLoop body n s) := by
  induction n with
  | zero => exact h0
  | succ n ih =>
    rw [forLoop]
    exact hstep n (Nat.lt_succ_self n) _
      (ih (fun k hk t ht => hstep k (Nat.lt_succ_of_lt hk) t ht))

omit [LinearOrderedField K] in
theorem blocks_length {α : Type} (g : Nat → List α) (c : Nat)
    (hc : ∀ k, (g k).length = c) (n : Nat) : (blocks g n).length = n * c := by
  induction n with
  | zero => simp [blocks]
  | succ n ih => rw [blocks, List.length_append, ih, hc, Nat.succ_mul]

omit [LinearOrderedField K] in
theorem blocks_getElem? {α : Type} (g : Nat → List α) (c : Nat)
    (hc : ∀ k, (g k).length = c) (n k t : Nat) (hk : k < n) (ht : t < c) :
    (blocks g n)[k * c + t]? = (g k)[t]? := by
  induction n with
  | zero => omega
  | succ n ih =>
    rw [blocks]
    rcases Nat.lt_succ_iff_lt_or_eq.mp hk with hlt | heq
    · have hle : (k + 1) * c ≤ n * c := Nat.mul_le_mul_right c hlt
      have hlen : k * c + t < (blocks g n).length := by
        rw [blocks_length g c hc n, Nat.succ_mul] at *
        omega
      rw [List.getElem?_append_left hlen]
      exact ih hlt
    · subst heq
      have hlen : (blocks g k).length ≤ k * c + t := by
        rw [blocks_length g c hc k]
        omega
      rw [List.getElem?_append_right hlen, blocks_length g c hc k]
      congr 1
      omega

omit [LinearOrderedField K] in
theorem mem_blocks {α : Type} (g : Nat → List α) (n : Nat) (x : α) :
    x ∈ blocks g n ↔ ∃ k, k < n ∧ x ∈ g k := by
  induction n with
  | zero => simp [blocks]
  | succ n ih =>
    rw [blocks, List.mem_append, ih]
    constructor
    · rintro (⟨k, hk, hx⟩ | hx)
      · exact ⟨k, Nat.lt_succ_of_lt hk, hx⟩
      · exact ⟨n, Nat.lt_succ_self n, hx⟩
    · rintro ⟨k, hk, hx⟩
      rcases Nat.lt_succ_iff_lt_or_eq.mp hk with hlt | heq
      · exact Or.inl ⟨k, hlt, hx⟩
      · subst heq
        exact Or.inr hx

/-! ### What the loops of `generatePatch` build -/

theorem pushVertex_loops_vertices (cp : ControlGrid K) (N a b : Nat) (m : Mesh K) :
    (forLoop (fun i m => forLoop (fun j m => pushVertex cp N i j m) b m) a m).vertices =
      m.vertices ++ blocks (fun i => blocks (fun j =>
        [evaluateBezier cp ((i : K) / (N : K)) ((j : K) / (N : K))]) b) a :=
  forLoop_proj_append Mesh.vertices _ _
    (fun _ s => forLoop_proj_append Mesh.vertices _ _ (fun _ _ => rfl) b s) a m

theorem pushVertex_loops_normals (cp : ControlGrid K) (N a b : Nat) (m : Mesh K) :
    (forLoop (fun i m => forLoop (fun j m => pushVertex cp N i j m) b m) a m).normals =
      m.normals ++ blocks (fun _ => blocks (fun _ => [FVec.val 0]) b) a :=
  forLoop_proj_append Mesh.normals _ _
    (fun _ s => forLoop_proj_append Mesh.normals _ _ (fun _ _ => rfl) b s) a m

theorem pushVertex_loops_indices (cp : ControlGrid K) (N a b : Nat) (m : Mesh K) :
    (forLoop (fun i m => forLoop (fun j m => pushVertex cp N i j m) b m) a m).indices =
      m.indices :=
  forLoop_proj_const Mesh.indices _
    (fun i s => forLoop_proj_const Mesh.indices (fun j m => pushVertex cp N i j m)
      (fun _ _ => rfl) b s) a m

theorem cellStep_vertices (sqrt : K → K) (N i j : Nat) (m : Mesh K) :
    (cellStep sqrt N i j m).vertices = m.vertices := rfl

theorem cellStep_indices (sqrt : K → K) (N i j : Nat) (m : Mesh K) :
    (cellStep sqrt N i j m).indices = m.indices ++ cellIndices N i j := by
  simp [cellStep, Mesh.addNormal, cellIndices]

theorem cellStep_normals_length (sqrt : K → K) (N i j : Nat) (m : Mesh K) :
    (cellStep sqrt N i j m).normals.length = m.normals.length := by
  simp [cellStep, Mesh.addNormal]

theorem cellStep_loops_vertices (sqrt : K → K) (N a b : Nat) (m : Mesh K) :
    (forLoop (fun i m => forLoop (fun j m => cellStep sqrt N i j m) b m) a m).vertices =
      m.vertices :=
  forLoop_proj_const Mesh.vertices _
    (fun i s => forLoop_proj_const Mesh.vertices (fun j m => cellStep sqrt N i j m)
      (fun _ _ => rfl) b s) a m

theorem cellStep_loops_normals_length (sqrt : K → K) (N a b : Nat) (m : Mesh K) :
    (forLoop (fun i m => forLoop (fun j m => cellStep sqrt N i j m) b m) a m).normals.length =
      m.normals.length :=
  forLoop_proj_const (fun m => m.normals.length) _
    (fun i s => forLoop_proj_const (fun m => m.normals.length) _
      (fun j t => cellStep_normals_length sqrt N i j t) b s) a m

theorem cellStep_loops_indices (sqrt : K → K) (N a b : Nat) (m : Mesh K) :
    (forLoop (fun i m => forLoop (fun j m => cellStep sqrt N i j m) b m) a m).indices =
      m.indices ++ blocks (fun i => blocks (fun j => cellIndices N i j) b) a :=
  forLoop_proj_append Mesh.indices _ _
    (fun i s => forLoop_proj_append Mesh.indices _ _
      (fun j t => cellStep_indices sqrt N i j t) b s) a m

theorem generatePatch_vertices (sqrt : K → K) (cp : ControlGrid K) (N : Nat) :
    (generatePatch sqrt cp N).vertices =
      blocks (fun i => blocks (fun j =>
        [evaluateBezier cp ((i : K) / (N : K)) ((j : K) / (N : K))]) (N + 1)) (N + 1) := by
  simp only [generatePatch, accumulatePatch, cellStep_loops_vertices,
    pushVertex_loops_vertices, List.nil_append]

theorem generatePatch_indices (sqrt : K → K) (cp : ControlGrid K) (N : Nat) :
    (generatePatch sqrt cp N).indices =
      blocks (fun i => blocks (fun j => cellIndices N i j) N) N := by
  simp only [generatePatch, accumulatePatch, cellStep_loops_indices,
    pushVertex_loops_indices, List.nil_append]

theorem accumulatePatch_normals_length (sqrt : K → K) (cp : ControlGrid K) (N : Nat) :
    (accumulatePatch sqrt cp N).normals.length = (N + 1) * (N + 1) := by
  simp only [accumulatePatch, cellStep_loops_normals_length, pushVertex_loops_normals,
    List.nil_append]
  rw [blocks_length _ ((N + 1) * 1)
    (fun _ => blocks_length (fun _ => [FVec.val 0]) 1 (fun _ => rfl) _)]
  simp

theorem cellIndices_length (N i j : Nat) : (cellIndices N i j).length = 6 := rfl

theorem cellIndices_lt (N i j k : Nat) (hi : i < N) (hj : j < N)
    (hk : k ∈ cellIndices N i j) : k < (N + 1) * (N + 1) := by
  have h1 : (i + 1) * (N + 1) ≤ N * (N + 1) := Nat.mul_le_mul_right _ hi
  have h2 : (N + 1) * (N + 1) = N * (N + 1) + (N + 1) := Nat.succ_mul N (N + 1)
  have h3 : (i + 1) * (N + 1) = i * (N + 1) + (N + 1) := Nat.succ_mul i (N + 1)
  simp only [cellIndices, List.mem_cons, List.mem_singleton, List.not_mem_nil,
    or_false] at hk
  omega

/-- C5. At every level `N ≥ 1`, `generatePatch` produces exactly `(N+1)^2` vertices,
`(N+1)^2` normals and `6 * N^2` indices, and every emitted index is below `(N+1)^2`. -/
theorem generatePatch_sizes (sqrt : K → K) (cp : ControlGrid K) (N : Nat) (_hN : 1 ≤ N) :
    (generatePatch sqrt cp N).vertices.length = (N + 1) ^ 2
    ∧ (generatePatch sqrt cp N).normals.length = (N + 1) ^ 2
    ∧ (generatePatch sqrt cp N).indices.length = 6 * N ^ 2
    ∧ ∀ k ∈ (generatePatch sqrt cp N).indices, 0 ≤ k ∧ k < (N + 1) ^ 2 := by
  refine ⟨?_, ?_, ?_, ?_⟩
  · rw [generatePatch_vertices, blocks_length _ ((N + 1) * 1) (fun i =>
      blocks_length (fun j => [evaluateBezier cp ((i : K) / (N : K)) ((j : K) / (N : K))])
        1 (fun _ => rfl) _)]
    ring
  · simp only [generatePatch, List.length_map, accumulatePatch_normals_length]
    ring
  · rw [generatePatch_indices, blocks_length _ (N * 6) (fun i =>
      blocks_length (fun j => cellIndices N i j) 6 (fun _ => rfl) _)]
    ring
  · intro k hk
    rw [generatePatch_indices] at hk
    obtain ⟨i, hi, hk⟩ := (mem_blocks _ _ _).mp hk
    obtain ⟨j, hj, hk⟩ := (mem_blocks _ _ _).mp hk
    refine ⟨Nat.zero_le k, ?_⟩
    rw [pow_two]
    exact cellIndices_lt N i j k hi hj hk

theorem generatePatch_vertices_row (sqrt : K → K) (cp : ControlGrid K) (N : Nat)
    (i j : Nat) (hi : i ≤ N) (hj : j ≤ N) :
    (generatePatch sqrt cp N).vertices[i * (N + 1) + j]? =
      (blocks (fun j => [evaluateBezier cp ((i : K) / (N : K)) ((j : K) / (N : K))])
        (N + 1))[j]? := by
  rw [generatePatch_vertices]
  have h := blocks_getElem? (fun i => blocks (fun j =>
    [evaluateBezier cp ((i : K) / (N : K)) ((j : K) / (N : K))]) (N + 1)) ((N + 1) * 1)
    (fun i => blocks_length (fun j =>
      [evaluateBezier cp ((i : K) / (N : K)) ((j : K) / (N : K))]) 1 (fun _ => rfl) _)
    (N + 1) i j (Nat.lt_succ_of_le hi) (by omega)
  rw [Nat.mul_one] at h
  exact h

/-- C6. At every level `N ≥ 1` and for all `i, j ≤ N`, the vertex at position
`i * (N + 1) + j` is `evaluateBezier(i / N, j / N)`. -/
theorem generatePatch_vertex_at (sqrt : K → K) (cp : ControlGrid K) (N : Nat) (_hN : 1 ≤ N)
    (i j : Nat) (hi : i ≤ N) (hj : j ≤ N) :
    (generatePatch sqrt cp N).vertices[i * (N + 1) + j]? =
      some (evaluateBezier cp ((i : K) / (N : K)) ((j : K) / (N : K))) := by
  rw [generatePatch_vertices_row sqrt cp N i j hi hj]
  have h2 := blocks_getElem? (fun j =>
    [evaluateBezier cp ((i : K) / (N : K)) ((j : K) / (N : K))]) 1 (fun _ => rfl)
    (N + 1) j 0 (Nat.lt_succ_of_le hj) Nat.zero_lt_one
  rw [Nat.mul_one, Nat.add_zero] at h2
  exact h2

/-- C7. At every level `N ≥ 1` and for every cell `(i, j)` with `i, j < N`, positions
`6 * (i * N + j)` to `6 * (i * N + j) + 5` of the index list hold
`(idx, idx+1, idx+N+1, idx+1, idx+N+2, idx+N+1)` with `idx = i * (N + 1) + j`; at
`N = 1` the index list is `[0, 1, 2, 1, 3, 2]`, over four vertices. -/
theorem generatePatch_cell_indices (sqrt : K → K) (cp : ControlGrid K) (N : Nat)
    (_hN : 1 ≤ N) (i j : Nat) (hi : i < N) (hj : j < N) :
    (((generatePatch sqrt cp N).indices.drop (6 * (i * N + j))).take 6 =
      [i * (N + 1) + j, i * (N + 1) + j + 1, i * (N + 1) + j + N + 1,
       i * (N + 1) + j + 1, i * (N + 1) + j + N + 2, i * (N + 1) + j + N + 1])
    ∧ (generatePatch sqrt cp 1).indices = [0, 1, 2, 1, 3, 2]
    ∧ (generatePatch sqrt cp 1).vertices.length = 4 := by
  refine ⟨?_, ?_, ?_⟩
  · have hget : ∀ t, t < 6 →
        (generatePatch sqrt cp N).indices[6 * (i * N + j) + t]? = (cellIndices N i j)[t]? := by
      intro t ht
      rw [generatePatch_indices]
      have h := blocks_getElem? (fun i => blocks (fun j => cellIndices N i j) N) (N * 6)
        (fun i => blocks_length (fun j => cellIndices N i j) 6 (fun _ => rfl) _)
        N i (j * 6 + t) hi (by omega)
      have h2 := blocks_getElem? (fun j => cellIndices N i j) 6 (fun _ => rfl) N j t hj ht
      have e : 6 * (i * N + j) + t = i * (N * 6) + (j * 6 + t) := by ring
      rw [e, h, h2]
    apply List.ext_getElem?
    intro t
    by_cases ht : t < 6
    · rw [List.getElem?_take_of_lt ht, List.getElem?_drop, hget t ht]
      rfl
    · rw [List.getElem?_take_eq_none (by omega)]
      symm
      apply List.getElem?_eq_none
      simp
      omega
  · rw [generatePatch_indices]
    rfl
  · rw [generatePatch_vertices]
    rfl

/-! ### Normal accumulation -/

omit [LinearOrderedField K] in
theorem trianglesOf_append (t : Nat) : ∀ (l r : List Nat), l.length = 3 * t →
    trianglesOf (l ++ r) = trianglesOf l ++ trianglesOf r := by
  induction t with
  | zero =>
    intro l r hl
    have : l = [] := List.length_eq_zero.mp (by omega)
    subst this
    simp [trianglesOf]
  | succ t ih =>
    intro l r hl
    match l, hl with
    | a :: b :: c :: rest, hl =>
      have hrest : rest.length = 3 * t := by
        simp only [List.length_cons] at hl
        omega
      have e := ih rest r hrest
      simp [trianglesOf, e]
    | [], hl => simp at hl
    | [_], hl => simp at hl; omega
    | [_, _], hl => simp at hl; omega

theorem addNormal_getD (m : Mesh K) (k q : Nat) (n : FVec K) (hk : k < m.normals.length) :
    (m.addNormal k n).normals.getD q 0 =
      m.normals.getD q 0 + (if q = k then n else 0) := by
  simp only [Mesh.addNormal, List.getD_eq_getElem?_getD, List.getElem?_set]
  by_cases h : k = q
  · subst h
    simp [hk]
  · have h2 : ¬ q = k := fun e => h e.symm
    simp [h, h2]

theorem addNormal_length (m : Mesh K) (k : Nat) (n : FVec K) :
    (m.addNormal k n).normals.length = m.normals.length := by
  simp [Mesh.addNormal]

theorem cellStep_normals_getD (sqrt : K → K) (N i j q : Nat) (m : Mesh K)
    (hb : i * (N + 1) + j + N + 2 < m.normals.length) :
    (cellStep sqrt N i j m).normals.getD q 0 =
      m.normals.getD q 0
        + (if q = i * (N + 1) + j then
            faceNormal sqrt m (i * (N + 1) + j, i * (N + 1) + j + 1, i * (N + 1) + j + N + 1)
           else 0)
        + (if q = i * (N + 1) + j + 1 then
            faceNormal sqrt m (i * (N + 1) + j, i * (N + 1) + j + 1, i * (N + 1) + j + N + 1)
            + faceNormal sqrt m
                (i * (N + 1) + j + 1, i * (N + 1) + j + N + 2, i * (N + 1) + j + N + 1)
           else 0)
        + (if q = i * (N + 1) + j + N + 1 then
            faceNormal sqrt m (i * (N + 1) + j, i * (N + 1) + j + 1, i * (N + 1) + j + N + 1)
            + faceNormal sqrt m
                (i * (N + 1) + j + 1, i * (N + 1) + j + N + 2, i * (N + 1) + j + N + 1)
           else 0)
        + (if q = i * (N + 1) + j + N + 2 then
            faceNormal sqrt m
              (i * (N + 1) + j + 1, i * (N + 1) + j + N + 2, i * (N + 1) + j + N + 1)
           else 0) := by
  unfold cellStep
  simp only []
  rw [addNormal_getD _ _ _ _ (by simp [Mesh.addNormal]; omega),
    addNormal_getD _ _ _ _ (by simp [Mesh.addNormal]; omega),
    addNormal_getD _ _ _ _ (by simp [Mesh.addNormal]; omega),
    addNormal_getD _ _ _ _ (by simp; omega)]
  rfl

theorem adjacentNormalSum_cellStep (sqrt : K → K) (N i j q t : Nat) (m : Mesh K)
    (ht : m.indices.length = 3 * t) :
    adjacentNormalSum sqrt (cellStep sqrt N i j m) q =
      adjacentNormalSum sqrt m q
        + ((if hasVertex q (i * (N + 1) + j, i * (N + 1) + j + 1, i * (N + 1) + j + N + 1)
            then faceNormal sqrt m
              (i * (N + 1) + j, i * (N + 1) + j + 1, i * (N + 1) + j + N + 1)
            else 0)
          + (if hasVertex q
                (i * (N + 1) + j + 1, i * (N + 1) + j + N + 2, i * (N + 1) + j + N + 1)
            then faceNormal sqrt m
              (i * (N + 1) + j + 1, i * (N + 1) + j + N + 2, i * (N + 1) + j + N + 1)
            else 0)) := by
  have hf : faceNormal sqrt (cellStep sqrt N i j m) = faceNormal sqrt m := rfl
  unfold adjacentNormalSum
  rw [cellStep_indices, trianglesOf_append t _ _ ht, hf, List.filter_append,
    List.map_append, List.sum_append]
  congr 1
  simp only [cellIndices, trianglesOf, List.filter_cons, List.filter_nil]
  split_ifs <;> simp

omit [LinearOrderedField K] in
theorem corner_sum_eq {M : Type} [AddCommMonoid M] (x n1 n2 : M) (q a N : Nat)
    (hN : 1 ≤ N) :
    x + (if q = a then n1 else 0) + (if q = a + 1 then n1 + n2 else 0)
        + (if q = a + N + 1 then n1 + n2 else 0) + (if q = a + N + 2 then n2 else 0) =
      x + ((if hasVertex q (a, a + 1, a + N + 1) then n1 else 0)
        + (if hasVertex q (a + 1, a + N + 2, a + N + 1) then n2 else 0)) := by
  have hv1 : hasVertex q (a, a + 1, a + N + 1) = true ↔
      (q = a ∨ q = a + 1 ∨ q = a + N + 1) := by
    simp [hasVertex, or_assoc]
  have hv2 : hasVertex q (a + 1, a + N + 2, a + N + 1) = true ↔
      (q = a + 1 ∨ q = a + N + 2 ∨ q = a + N + 1) := by
    simp [hasVertex, or_assoc]
  by_cases h1 : q = a
  · rw [if_pos h1, if_neg (by omega : ¬ q = a + 1), if_neg (by omega : ¬ q = a + N + 1),
      if_neg (by omega : ¬ q = a + N + 2), if_pos (hv1.mpr (by omega)),
      if_neg (fun h => by have := hv2.mp h; omega)]
    simp [add_assoc]
  · by_cases h2 : q = a + 1
    · rw [if_neg h1, if_pos h2, if_neg (by omega : ¬ q = a + N + 1),
        if_neg (by omega : ¬ q = a + N + 2), if_pos (hv1.mpr (by omega)),
        if_pos (hv2.mpr (by omega))]
      simp [add_assoc]
    · by_cases h3 : q = a + N + 1
      · rw [if_neg h1, if_neg h2, if_pos h3, if_neg (by omega : ¬ q = a + N + 2),
          if_pos (hv1.mpr (by omega)), if_pos (hv2.mpr (by omega))]
        simp [add_assoc]
      · by_cases h4 : q = a + N + 2
        · rw [if_neg h1, if_neg h2, if_neg h3, if_pos h4,
            if_neg (fun h => by have := hv1.mp h; omega), if_pos (hv2.mpr (by omega))]
          simp [add_assoc]
        · rw [if_neg h1, if_neg h2, if_neg h3, if_neg h4,
            if_neg (fun h => by have := hv1.mp h; omega),
            if_neg (fun h => by have := hv2.mp h; omega)]
          simp

theorem cellStep_inv (sqrt : K → K) (V : List (Vec3 K)) (L N i j : Nat) (m : Mesh K)
    (hN : 1 ≤ N) (hb : i * (N + 1) + j + N + 2 < L) (h : CellInv sqrt V L m) :
    CellInv sqrt V L (cellStep sqrt N i j m) := by
  obtain ⟨hv, hl, ⟨t, ht⟩, hq⟩ := h
  refine ⟨hv, ?_, ⟨t + 2, ?_⟩, ?_⟩
  · rw [cellStep_normals_length, hl]
  · rw [cellStep_indices, List.length_append, ht, cellIndices_length]
    omega
  · intro q hqL
    rw [cellStep_normals_getD sqrt N i j q m (by omega),
      adjacentNormalSum_cellStep _ _ _ _ _ t _ ht, hq q hqL]
    exact corner_sum_eq _ _ _ q (i * (N + 1) + j) N hN

theorem getD_of_all_zero (l : List (FVec K)) (h : ∀ x ∈ l, x = 0) (q : Nat) :
    l.getD q 0 = 0 := by
  rw [List.getD_eq_getElem?_getD]
  cases hq : l[q]? with
  | none => rfl
  | some x => exact h x (List.getElem?_mem hq)

theorem accumulatePatch_inv (sqrt : K → K) (cp : ControlGrid K) (N : Nat) (hN : 1 ≤ N) :
    CellInv sqrt (generatePatch sqrt cp N).vertices ((N + 1) * (N + 1))
      (accumulatePatch sqrt cp N) := by
  have hV : (generatePatch sqrt cp N).vertices =
      (forLoop (fun i m => forLoop (fun j m => pushVertex cp N i j m) (N + 1) m) (N + 1)
        (⟨[], [], []⟩ : Mesh K)).vertices := by
    simp only [generatePatch, accumulatePatch, cellStep_loops_vertices]
  unfold accumulatePatch
  simp only []
  apply forLoop_invariant (fun _ m => CellInv sqrt (generatePatch sqrt cp N).vertices
    ((N + 1) * (N + 1)) m)
  · refine ⟨hV.symm, ?_, ⟨0, ?_⟩, ?_⟩
    · rw [pushVertex_loops_normals, List.nil_append, blocks_length _ ((N + 1) * 1)
        (fun _ => blocks_length (fun _ => [FVec.val 0]) 1 (fun _ => rfl) _)]
      simp
    · rw [pushVertex_loops_indices]
      rfl
    · intro q _
      rw [pushVertex_loops_normals, List.nil_append]
      rw [getD_of_all_zero]
      · simp [adjacentNormalSum, pushVertex_loops_indices, trianglesOf]
      · intro x hx
        obtain ⟨_, _, hx⟩ := (mem_blocks _ _ _).mp hx
        obtain ⟨_, _, hx⟩ := (mem_blocks _ _ _).mp hx
        simpa using hx
  · intro i hi m hm
    apply forLoop_invariant (fun _ m => CellInv sqrt (generatePatch sqrt cp N).vertices
      ((N + 1) * (N + 1)) m) _ _ _ hm
    intro j hj t ht
    have h1 : (i + 1) * (N + 1) ≤ N * (N + 1) := Nat.mul_le_mul_right _ hi
    have h2 : (N + 1) * (N + 1) = N * (N + 1) + (N + 1) := Nat.succ_mul N (N + 1)
    have h3 : (i + 1) * (N + 1) = i * (N + 1) + (N + 1) := Nat.succ_mul i (N + 1)
    exact cellStep_inv sqrt _ _ N i j t hN (by omega) ht

theorem dot_self_pos (c : Vec3 K) (hc : c ≠ 0) : 0 < dot c c := by
  by_contra hneg
  have h0 : c.x * c.x + c.y * c.y + c.z * c.z ≤ 0 := not_lt.mp hneg
  have hx : c.x = 0 := by nlinarith [mul_self_nonneg c.x, mul_self_nonneg c.y, mul_self_nonneg c.z]
  have hy : c.y = 0 := by nlinarith [mul_self_nonneg c.x, mul_self_nonneg c.y, mul_self_nonneg c.z]
  have hz : c.z = 0 := by nlinarith [mul_self_nonneg c.x, mul_self_nonneg c.y, mul_self_nonneg c.z]
  exact hc (Vec3.ext3 hx hy hz)

theorem normalize_of_ne (sqrt : K → K) (v : Vec3 K) (h : sqrt (dot v v) ≠ 0) :
    normalize sqrt v = FVec.val ((1 / sqrt (dot v v)) • v) := by
  simp only [normalize, if_neg h]

theorem sum_is_val (l : List (FVec K)) (h : ∀ a ∈ l, ∃ v, a = FVec.val v) :
    ∃ v, l.sum = FVec.val v := by
  induction l with
  | nil => exact ⟨0, rfl⟩
  | cons a l ih =>
    obtain ⟨v, hv⟩ := h a (List.mem_cons_self a l)
    obtain ⟨w, hw⟩ := ih (fun b hb => h b (List.mem_cons_of_mem a hb))
    exact ⟨v + w, by rw [List.sum_cons, hv, hw]; rfl⟩

/-- C8. At every level `N ≥ 1` where no emitted triangle is degenerate, the normal
accumulated for vertex `k` before the last loop is the sum, over the triangles
`(a, b, c)` of the index list that contain `k`, of
`normalize(cross(vertices[b] - vertices[a], vertices[c] - vertices[a]))`, each such
triangle once; the stored normal is that sum put through the last loop, which
normalizes it when its length is positive. -/
theorem generatePatch_normal_eq_sum (sqrt : K → K) (hsqrt : ∀ x, 0 < x → sqrt x ≠ 0)
    (cp : ControlGrid K) (N : Nat) (hN : 1 ≤ N)
    (hnd : ∀ t ∈ trianglesOf (generatePatch sqrt cp N).indices,
      cross ((generatePatch sqrt cp N).vertex t.2.1 - (generatePatch sqrt cp N).vertex t.1)
        ((generatePatch sqrt cp N).vertex t.2.2 - (generatePatch sqrt cp N).vertex t.1) ≠ 0)
    (k : Nat) (hk : k < (N + 1) ^ 2) :
    ∃ s : Vec3 K,
      (((trianglesOf (generatePatch sqrt cp N).indices).filter (hasVertex k)).map
        (fun t => normalize sqrt (cross
          ((generatePatch sqrt cp N).vertex t.2.1 - (generatePatch sqrt cp N).vertex t.1)
          ((generatePatch sqrt cp N).vertex t.2.2 - (generatePatch sqrt cp N).vertex t.1)))).sum
        = FVec.val s
      ∧ (accumulatePatch sqrt cp N).normals[k]? = some (FVec.val s)
      ∧ (generatePatch sqrt cp N).normals[k]? =
          some (if length sqrt s > 0 then normalize sqrt s else FVec.val s) := by
  obtain ⟨_, hl, _, hq⟩ := accumulatePatch_inv sqrt cp N hN
  have hk2 : k < (N + 1) * (N + 1) := by rw [← pow_two]; exact hk
  obtain ⟨s, hs⟩ := sum_is_val
    (((trianglesOf (generatePatch sqrt cp N).indices).filter (hasVertex k)).map
      (faceNormal sqrt (generatePatch sqrt cp N))) (by
      intro a ha
      obtain ⟨t, ht, rfl⟩ := List.mem_map.mp ha
      have hc := hnd t (List.mem_filter.mp ht).1
      have hne := hsqrt _ (dot_self_pos _ hc)
      exact ⟨_, normalize_of_ne sqrt _ hne⟩)
  have hacc : (accumulatePatch sqrt cp N).normals[k]? = some (FVec.val s) := by
    have h1 := hq k hk2
    rw [List.getD_eq_getElem?_getD, List.getElem?_eq_getElem (by rw [hl]; exact hk2)] at h1
    rw [List.getElem?_eq_getElem (by rw [hl]; exact hk2)]
    simp only [Option.getD_some] at h1
    rw [h1]
    exact congrArg some hs
  refine ⟨s, hs, hacc, ?_⟩
  simp only [generatePatch, List.getElem?_map, hacc, Option.map_some', finalNormalize]

/-! ### The patch at level 1, and a flat patch -/

theorem evaluateBezier_zero_zero (cp : ControlGrid K) : evaluateBezier cp 0 0 = cp 0 := by
  rw [evaluateBezier_unroll]
  simp only [B_zero, B_one, B_two, B_three]
  apply Vec3.ext3 <;> simp

theorem evaluateBezier_zero_one (cp : ControlGrid K) : evaluateBezier cp 0 1 = cp 3 := by
  rw [evaluateBezier_unroll]
  simp only [B_zero, B_one, B_two, B_three]
  apply Vec3.ext3 <;> simp

theorem evaluateBezier_one_zero (cp : ControlGrid K) : evaluateBezier cp 1 0 = cp 12 := by
  rw [evaluateBezier_unroll]
  simp only [B_zero, B_one, B_two, B_three]
  apply Vec3.ext3 <;> simp

theorem evaluateBezier_one_one (cp : ControlGrid K) : evaluateBezier cp 1 1 = cp 15 := by
  rw [evaluateBezier_unroll]
  simp only [B_zero, B_one, B_two, B_three]
  apply Vec3.ext3 <;> simp

theorem generatePatch_one_vertices (sqrt : K → K) (cp : ControlGrid K) :
    (generatePatch sqrt cp 1).vertices = [cp 0, cp 3, cp 12, cp 15] := by
  rw [generatePatch_vertices]
  simp [blocks, evaluateBezier_zero_zero, evaluateBezier_zero_one, evaluateBezier_one_zero,
    evaluateBezier_one_one]

theorem generatePatch_one_indices (sqrt : K → K) (cp : ControlGrid K) :
    (generatePatch sqrt cp 1).indices = [0, 1, 2, 1, 3, 2] := by
  rw [generatePatch_indices]
  rfl

theorem FVec.nan_add (a : FVec K) : FVec.nan + a = FVec.nan := rfl

theorem FVec.add_nan (a : FVec K) : a + FVec.nan = FVec.nan := by
  cases a <;> rfl

/-- C4 (as the code has it). The four parametric corners reproduce the four corner
control points, with `u` selecting the row: `evaluateBezier(0,0) = controlPoints[0]`,
`evaluateBezier(1,0) = controlPoints[12]`, `evaluateBezier(0,1) = controlPoints[3]`,
`evaluateBezier(1,1) = controlPoints[15]`. -/
theorem evaluateBezier_corners (cp : ControlGrid K) :
    evaluateBezier cp 0 0 = cp 0 ∧ evaluateBezier cp 1 0 = cp 12
    ∧ evaluateBezier cp 0 1 = cp 3 ∧ evaluateBezier cp 1 1 = cp 15 := by
  exact ⟨evaluateBezier_zero_zero cp, evaluateBezier_one_zero cp, evaluateBezier_zero_one cp,
    evaluateBezier_one_one cp⟩

/-! ### Move commands -/

/-- With `I` the only move key down, lines 351 to 360 are the move `y += 0.1`. -/
theorem movePoint_keyI (keys : Keys) (s : PatchState K) (hI : keys.keyI = true)
    (hK : keys.keyK = false) (hJ : keys.keyJ = false) (hL : keys.keyL = false)
    (hU : keys.keyU = false) (hO : keys.keyO = false) :
    movePoint keys s = moveSelected Axis.y 0.1 s := by
  simp [movePoint, moveSelected, hI, hK, hJ, hL, hU, hO]

/-- With `K` the only move key down, lines 351 to 360 are the move `y -= 0.1`. -/
theorem movePoint_keyK (keys : Keys) (s : PatchState K) (hI : keys.keyI = false)
    (hK : keys.keyK = true) (hJ : keys.keyJ = false) (hL : keys.keyL = false)
    (hU : keys.keyU = false) (hO : keys.keyO = false) :
    movePoint keys s = moveSelected Axis.y (-0.1) s := by
  simp [movePoint, moveSelected, hI, hK, hJ, hL, hU, hO]

/-- With `J` the only move key down, lines 351 to 360 are the move `x -= 0.1`. -/
theorem movePoint_keyJ (keys : Keys) (s : PatchState K) (hI : keys.keyI = false)
    (hK : keys.keyK = false) (hJ : keys.keyJ = true) (hL : keys.keyL = false)
    (hU : keys.keyU = false) (hO : keys.keyO = false) :
    movePoint keys s = moveSelected Axis.x (-0.1) s := by
  simp [movePoint, moveSelected, hI, hK, hJ, hL, hU, hO]

/-- With `L` the only move key down, lines 351 to 360 are the move `x += 0.1`. -/
theorem movePoint_keyL (keys : Keys) (s : PatchState K) (hI : keys.keyI = false)
    (hK : keys.keyK = false) (hJ : keys.keyJ = false) (hL : keys.keyL = true)
    (hU : keys.keyU = false) (hO : keys.keyO = false) :
    movePoint keys s = moveSelected Axis.x 0.1 s := by
  simp [movePoint, moveSelected, hI, hK, hJ, hL, hU, hO]

/-- With `U` the only move key down, lines 351 to 360 are the move `z += 0.1`. -/
theorem movePoint_keyU (keys : Keys) (s : PatchState K) (hI : keys.keyI = false)
    (hK : keys.keyK = false) (hJ : keys.keyJ = false) (hL : keys.keyL = false)
    (hU : keys.keyU = true) (hO : keys.keyO = false) :
    movePoint keys s = moveSelected Axis.z 0.1 s := by
  simp [movePoint, moveSelected, hI, hK, hJ, hL, hU, hO]

/-- With `O` the only move key down, lines 351 to 360 are the move `z -= 0.1`. -/
theorem movePoint_keyO (keys : Keys) (s : PatchState K) (hI : keys.keyI = false)
    (hK : keys.keyK = false) (hJ : keys.keyJ = false) (hL : keys.keyL = false)
    (hU : keys.keyU = false) (hO : keys.keyO = true) :
    movePoint keys s = moveSelected Axis.z (-0.1) s := by
  simp [movePoint, moveSelected, hI, hK, hJ, hL, hU, hO]

/-! ### Selection and tessellation commands -/

omit [LinearOrderedField K] in
/-- C11. A firing right arrow sets `selectedPoint` to `(s + 1) mod 16`, a firing left
arrow to `(s + 15) mod 16`, which is `(s - 1) mod 16`: 15 advances to 0, 0 retreats to
15, the result is in `[0, 15]`; whatever the key, neither step changes a control point
or the tessellation level. -/
theorem select_wraps (s : PatchState K) (hL : s.leftPressedLast = false)
    (hR : s.rightPressedLast = false) (_hs : s.selectedPoint < 16) :
    (selectNext true s).selectedPoint = (s.selectedPoint + 1) % 16
    ∧ (selectPrevious true s).selectedPoint = (s.selectedPoint + 15) % 16
    ∧ (((s.selectedPoint + 15) % 16 : Nat) : Int) = ((s.selectedPoint : Int) - 1) % 16
    ∧ (s.selectedPoint = 15 → (selectNext true s).selectedPoint = 0)
    ∧ (s.selectedPoint = 0 → (selectPrevious true s).selectedPoint = 15)
    ∧ (selectNext true s).selectedPoint < 16
    ∧ (selectPrevious true s).selectedPoint < 16
    ∧ (∀ key, (selectNext key s).controlPoints = s.controlPoints
        ∧ (selectNext key s).tessellation = s.tessellation
        ∧ (selectPrevious key s).controlPoints = s.controlPoints
        ∧ (selectPrevious key s).tessellation = s.tessellation) := by
  have e1 : (selectNext true s).selectedPoint = (s.selectedPoint + 1) % 16 := by
    simp [selectNext, hR]
  have e2 : (selectPrevious true s).selectedPoint = (s.selectedPoint + 15) % 16 := by
    simp [selectPrevious, hL]
  refine ⟨e1, e2, by omega, ?_, ?_, ?_, ?_, ?_⟩
  · intro h
    rw [e1, h]
  · intro h
    rw [e2, h]
  · rw [e1]
    exact Nat.mod_lt _ (by decide)
  · rw [e2]
    exact Nat.mod_lt _ (by decide)
  · intro key
    cases key <;> simp [selectNext, selectPrevious, hL, hR]

/-- C12 (as the code has it). For every state and every value of the key: an arrow key
that fires (key down and its latch clear) sets `needsUpdate`, so a selection change
alone makes the frame re-tessellate; an arrow key that does not fire (key up, or key
held with its latch set) leaves `needsUpdate` and `selectedPoint` as they were. -/
theorem select_sets_needsUpdate (sqrt : K → K) (key : Bool) (s : PatchState K) :
    ((key = true ∧ s.rightPressedLast = false) →
      (selectNext key s).needsUpdate = true
      ∧ (commitIfDirty sqrt (selectNext key s)).mesh =
          generatePatch sqrt s.controlPoints s.tessellation)
    ∧ ((key = true ∧ s.leftPressedLast = false) →
      (selectPrevious key s).needsUpdate = true
      ∧ (commitIfDirty sqrt (selectPrevious key s)).mesh =
          generatePatch sqrt s.controlPoints s.tessellation)
    ∧ (¬ (key = true ∧ s.rightPressedLast = false) →
      (selectNext key s).needsUpdate = s.needsUpdate
      ∧ (selectNext key s).selectedPoint = s.selectedPoint)
    ∧ (¬ (key = true ∧ s.leftPressedLast = false) →
      (selectPrevious key s).needsUpdate = s.needsUpdate
      ∧ (selectPrevious key s).selectedPoint = s.selectedPoint) := by
  refine ⟨?_, ?_, ?_, ?_⟩
  · rintro ⟨hk, hl⟩
    simp [selectNext, commitIfDirty, hk, hl]
  · rintro ⟨hk, hl⟩
    simp [selectPrevious, commitIfDirty, hk, hl]
  · intro h
    cases key <;> cases hl : s.rightPressedLast <;> simp [selectNext, hl] at h ⊢
  · intro h
    cases key <;> cases hl : s.leftPressedLast <;> simp [selectPrevious, hl] at h ⊢

omit [LinearOrderedField K] in
/-- C13. From a level `N` in `[1, 50]`, a firing `=` sets the level to `min (N+1) 50`
and a firing `-` sets it to `max (N-1) 1`; the result is in `[1, 50]`. Both steps are
total: there is no error outcome. -/
theorem tessellation_clamped (s : PatchState K) (hlo : 1 ≤ s.tessellation)
    (hhi : s.tessellation ≤ 50) (hP : s.plusPressedLast = false)
    (hM : s.minusPressedLast = false) :
    (tessellationUp true s).tessellation = min (s.tessellation + 1) 50
    ∧ (((tessellationDown true s).tessellation : Nat) : Int) =
        max ((s.tessellation : Int) - 1) 1
    ∧ 1 ≤ (tessellationUp true s).tessellation
    ∧ (tessellationUp true s).tessellation ≤ 50
    ∧ 1 ≤ (tessellationDown true s).tessellation
    ∧ (tessellationDown true s).tessellation ≤ 50 := by
  have e1 : (tessellationUp true s).tessellation = min (s.tessellation + 1) 50 := by
    simp [tessellationUp, hP]
  have e2 : (tessellationDown true s).tessellation = max (s.tessellation - 1) 1 := by
    simp [tessellationDown, hM]
  rw [e1, e2]
  omega

omit [LinearOrderedField K] in
/-- C14 (as the code has it). A firing `=` or `-` key sets `needsUpdate` whether or not
the clamped level differs from the current one: at 50 a firing `=`, and at 1 a firing
`-`, leave the level as it is and still set `needsUpdate`. -/
theorem tessellation_key_sets_needsUpdate (s : PatchState K)
    (hP : s.plusPressedLast = false) (hM : s.minusPressedLast = false) :
    (tessellationUp true s).needsUpdate = true
    ∧ (tessellationDown true s).needsUpdate = true
    ∧ (s.tessellation = 50 → (tessellationUp true s).tessellation = 50)
    ∧ (s.tessellation = 1 → (tessellationDown true s).tessellation = 1) := by
  refine ⟨?_, ?_, ?_, ?_⟩
  · simp [tessellationUp, hP]
  · simp [tessellationDown, hM]
  · intro h
    simp [tessellationUp, hP, h]
  · intro h
    simp [tessellationDown, hM, h]

/-- C15. After one run of the update block `needsUpdate` is false; a second run right
after it changes nothing at all; a run on a state with `needsUpdate` false changes
nothing. -/
theorem commitIfDirty_idempotent (sqrt : K → K) (s : PatchState K) :
    (commitIfDirty sqrt s).needsUpdate = false
    ∧ commitIfDirty sqrt (commitIfDirty sqrt s) = commitIfDirty sqrt s
    ∧ (s.needsUpdate = false → commitIfDirty sqrt s = s) := by
  refine ⟨?_, ?_, ?_⟩
  · unfold commitIfDirty
    split_ifs with h
    · rfl
    · simpa using h
  · unfold commitIfDirty
    split_ifs with h <;> simp_all
  · intro h
    simp [commitIfDirty, h]

/-! ### The frame step -/

theorem selectPrevious_current (sqrt : K → K) (key : Bool) (s : PatchState K)
    (h : MeshCurrent sqrt s) : MeshCurrent sqrt (selectPrevious key s) := by
  unfold MeshCurrent selectPrevious at *
  split_ifs <;> simp_all

theorem selectNext_current (sqrt : K → K) (key : Bool) (s : PatchState K)
    (h : MeshCurrent sqrt s) : MeshCurrent sqrt (selectNext key s) := by
  unfold MeshCurrent selectNext at *
  split_ifs <;> simp_all

theorem tessellationUp_current (sqrt : K → K) (key : Bool) (s : PatchState K)
    (h : MeshCurrent sqrt s) : MeshCurrent sqrt (tessellationUp key s) := by
  unfold MeshCurrent tessellationUp at *
  split_ifs <;> simp_all

theorem tessellationDown_current (sqrt : K → K) (key : Bool) (s : PatchState K)
    (h : MeshCurrent sqrt s) : MeshCurrent sqrt (tessellationDown key s) := by
  unfold MeshCurrent tessellationDown at *
  split_ifs <;> simp_all

theorem movePoint_of_no_key (keys : Keys) (s : PatchState K)
    (h : (keys.keyI || keys.keyK || keys.keyJ || keys.keyL || keys.keyU || keys.keyO)
      = false) : movePoint keys s = s := by
  simp only [Bool.or_eq_false_iff] at h
  obtain ⟨⟨⟨⟨⟨hI, hK⟩, hJ⟩, hL⟩, hU⟩, hO⟩ := h
  simp [movePoint, hI, hK, hJ, hL, hU, hO]

theorem movePoint_needsUpdate (keys : Keys) (s : PatchState K) :
    (movePoint keys s).needsUpdate =
      (s.needsUpdate || keys.keyI || keys.keyK || keys.keyJ || keys.keyL || keys.keyU
        || keys.keyO) := by
  cases h : (keys.keyI || keys.keyK || keys.keyJ || keys.keyL || keys.keyU || keys.keyO)
  · rw [movePoint_of_no_key keys s h]
    simp only [Bool.or_eq_false_iff] at h
    obtain ⟨⟨⟨⟨⟨hI, hK⟩, hJ⟩, hL⟩, hU⟩, hO⟩ := h
    simp [hI, hK, hJ, hL, hU, hO]
  · have e : (movePoint keys s).needsUpdate = true := by
      unfold movePoint
      simp only [h, if_true]
    rw [e]
    simp only [Bool.or_assoc] at h ⊢
    rw [h]
    simp

theorem movePoint_current (sqrt : K → K) (keys : Keys) (s : PatchState K)
    (h : MeshCurrent sqrt s) : MeshCurrent sqrt (movePoint keys s) := by
  cases hk : (keys.keyI || keys.keyK || keys.keyJ || keys.keyL || keys.keyU || keys.keyO)
  · rw [movePoint_of_no_key keys s hk]
    exact h
  · left
    rw [movePoint_needsUpdate]
    simp only [Bool.or_assoc] at hk ⊢
    rw [hk]
    simp

theorem processInput_eq (sqrt : K → K) (keys : Keys) (s : PatchState K) :
    processInput sqrt keys s = commitIfDirty sqrt (frameInput keys s) := rfl

theorem frameInput_current (sqrt : K → K) (keys : Keys) (s : PatchState K)
    (h : MeshCurrent sqrt s) : MeshCurrent sqrt (frameInput keys s) :=
  tessellationDown_current sqrt _ _ (tessellationUp_current sqrt _ _
    (movePoint_current sqrt keys _ (selectNext_current sqrt _ _
      (selectPrevious_current sqrt _ _ h))))

theorem commitIfDirty_synchronised (sqrt : K → K) (s : PatchState K)
    (h : MeshCurrent sqrt s) :
    (commitIfDirty sqrt s).mesh =
      generatePatch sqrt (commitIfDirty sqrt s).controlPoints
        (commitIfDirty sqrt s).tessellation := by
  unfold commitIfDirty
  split_ifs with hd
  · rfl
  · rcases h with h | h
    · exact absurd h hd
    · exact h

theorem processInput_synchronised (sqrt : K → K) (keys : Keys) (s : PatchState K)
    (h : MeshCurrent sqrt s) :
    (processInput sqrt keys s).mesh =
      generatePatch sqrt (processInput sqrt keys s).controlPoints
        (processInput sqrt keys s).tessellation := by
  rw [processInput_eq]
  exact commitIfDirty_synchronised sqrt _ (frameInput_current sqrt keys s h)

/-- C16. At startup and after every run of `processInput`, whatever the keys, the stored
mesh (vertices, normals, indices) is the tessellation of the current control grid at
the current level: no reachable state has a stale mesh. -/
theorem reachable_mesh_synchronised (sqrt : K → K) (s : PatchState K)
    (h : Reachable sqrt s) :
    s.mesh = generatePatch sqrt s.controlPoints s.tessellation := by
  induction h with
  | start => rfl
  | frame keys t _ ih => exact processInput_synchronised sqrt keys t (Or.inr ih)

theorem bump_bump_neg (a : Axis) (delta : K) (p : Vec3 K) :
    (p.bump a delta).bump a (-delta) = p := by
  cases a <;> apply Vec3.ext3 <;> simp [Vec3.bump]

theorem move_back_controlPoints (sqrt : K → K) (s : PatchState K) (a : Axis) (delta : K) :
    (moveSelected a (-delta) (commitIfDirty sqrt (moveSelected a delta s))).controlPoints =
      s.controlPoints := by
  funext k
  by_cases hk : k.val = s.selectedPoint
  · simp [moveSelected, translateSelected, commitIfDirty, hk, bump_bump_neg]
  · simp [moveSelected, translateSelected, commitIfDirty, hk]

/-- C18. From a state whose mesh is not stale (as at startup and after every frame),
moving the selected control point by `delta`, committing, moving it by `-delta` and
committing again gives the control grid and the mesh (vertices, normals, indices) that
committing the original state gives. -/
theorem move_roundtrip (sqrt : K → K) (s : PatchState K) (a : Axis) (delta : K)
    (hcur : MeshCurrent sqrt s) :
    (commitIfDirty sqrt (moveSelected a (-delta)
        (commitIfDirty sqrt (moveSelected a delta s)))).controlPoints =
      (commitIfDirty sqrt s).controlPoints
    ∧ (commitIfDirty sqrt (moveSelected a (-delta)
        (commitIfDirty sqrt (moveSelected a delta s)))).mesh =
      (commitIfDirty sqrt s).mesh
    ∧ (commitIfDirty sqrt (moveSelected a (-delta)
        (commitIfDirty sqrt (moveSelected a delta s)))).mesh =
      generatePatch sqrt s.controlPoints s.tessellation := by
  have hcp := move_back_controlPoints sqrt s a delta
  have hmesh : (commitIfDirty sqrt (moveSelected a (-delta)
      (commitIfDirty sqrt (moveSelected a delta s)))).mesh =
      generatePatch sqrt s.controlPoints s.tessellation := by
    have e : (commitIfDirty sqrt (moveSelected a (-delta)
        (commitIfDirty sqrt (moveSelected a delta s)))).mesh =
        generatePatch sqrt (moveSelected a (-delta)
          (commitIfDirty sqrt (moveSelected a delta s))).controlPoints s.tessellation := by
      simp [commitIfDirty, moveSelected, translateSelected]
    rw [e, hcp]
  have hcommit : (commitIfDirty sqrt s).mesh =
      generatePatch sqrt s.controlPoints s.tessellation := by
    have h := commitIfDirty_synchronised sqrt s hcur
    have e1 : (commitIfDirty sqrt s).controlPoints = s.controlPoints := by
      unfold commitIfDirty
      split_ifs <;> rfl
    have e2 : (commitIfDirty sqrt s).tessellation = s.tessellation := by
      unfold commitIfDirty
      split_ifs <;> rfl
    rw [e1, e2] at h
    exact h
  refine ⟨?_, ?_, hmesh⟩
  · have e1 : (commitIfDirty sqrt s).controlPoints = s.controlPoints := by
      unfold commitIfDirty
      split_ifs <;> rfl
    rw [e1, ← hcp]
    unfold commitIfDirty
    split_ifs <;> rfl
  · rw [hmesh, hcommit]

/-- C19. At every level `N ≥ 1` the first vertex of the mesh (position 0) is
`controlPoints[0]` and the last one (position `(N+1)^2 - 1`) is `controlPoints[15]`. -/
theorem generatePatch_first_last_vertex (sqrt : K → K) (cp : ControlGrid K) (N : Nat)
    (hN : 1 ≤ N) :
    (generatePatch sqrt cp N).vertices[0]? = some (cp 0)
    ∧ (generatePatch sqrt cp N).vertices[(N + 1) ^ 2 - 1]? = some (cp 15) := by
  constructor
  · have h := generatePatch_vertices_row sqrt cp N 0 0 (Nat.zero_le N) (Nat.zero_le N)
    have h2 := blocks_getElem? (fun j =>
      [evaluateBezier cp (((0 : Nat) : K) / (N : K)) ((j : K) / (N : K))]) 1 (fun _ => rfl)
      (N + 1) 0 0 (Nat.succ_pos N) Nat.zero_lt_one
    simp only [Nat.zero_mul, Nat.add_zero] at h h2
    rw [h, h2]
    simp only [Nat.cast_zero, zero_div, evaluateBezier_zero_zero]
    rfl
  · have h := generatePatch_vertices_row sqrt cp N N N (Nat.le_refl N) (Nat.le_refl N)
    have h2 := blocks_getElem? (fun j =>
      [evaluateBezier cp ((N : K) / (N : K)) ((j : K) / (N : K))]) 1 (fun _ => rfl)
      (N + 1) N 0 (Nat.lt_succ_self N) Nat.zero_lt_one
    have hne : (N : K) ≠ 0 := Nat.cast_ne_zero.mpr (by omega)
    have e : (N + 1) ^ 2 - 1 = N * (N + 1) + N := by
      have : (N + 1) ^ 2 = N * (N + 1) + N + 1 := by ring
      omega
    simp only [Nat.mul_one, Nat.add_zero] at h2
    rw [e, h, h2]
    simp only [div_self hne, evaluateBezier_one_one]
    rfl

/-! ### Triangles around a vertex -/

omit [LinearOrderedField K] in
theorem trianglesOf_blocks (g : Nat → List Nat) (h : Nat → List (Nat × Nat × Nat))
    (c : Nat) (hlen : ∀ k, (g k).length = 3 * c) (hk : ∀ k, trianglesOf (g k) = h k)
    (n : Nat) : trianglesOf (blocks g n) = blocks h n := by
  induction n with
  | zero => rfl
  | succ n ih =>
    rw [blocks, blocks, trianglesOf_append (n * c) _ _
      (by rw [blocks_length g (3 * c) hlen n]; ring), ih, hk]

theorem generatePatch_triangles (sqrt : K → K) (cp : ControlGrid K) (N : Nat) :
    trianglesOf (generatePatch sqrt cp N).indices =
      blocks (fun a => blocks (fun b => cellTriangles N a b) N) N := by
  rw [generatePatch_indices]
  apply trianglesOf_blocks _ _ (N * 2)
  · intro a
    rw [blocks_length (fun b => cellIndices N a b) 6 (fun _ => rfl) N]
    ring
  · intro a
    exact trianglesOf_blocks (fun b => cellIndices N a b) _ 2 (fun _ => rfl)
      (fun _ => rfl) N

omit [LinearOrderedField K] in
theorem countP_blocks {α : Type} (p : α → Bool) (g : Nat → List α) (n : Nat) :
    (blocks g n).countP p = ∑ k in Finset.range n, (g k).countP p := by
  induction n with
  | zero => rfl
  | succ n ih => rw [blocks, List.countP_append, ih, Finset.sum_range_succ]

omit [LinearOrderedField K] in
theorem index_eq_iff (N a b i j : Nat) (hb : b ≤ N) (hj : j ≤ N) :
    i * (N + 1) + j = a * (N + 1) + b ↔ i = a ∧ j = b := by
  constructor
  · intro h
    have hi : i = a := by
      have h1 := congrArg (fun x => x / (N + 1)) h
      simp only [] at h1
      rw [Nat.add_comm (i * (N + 1)), Nat.add_comm (a * (N + 1)),
        Nat.add_mul_div_right _ _ (Nat.succ_pos N),
        Nat.add_mul_div_right _ _ (Nat.succ_pos N),
        Nat.div_eq_of_lt (Nat.lt_succ_of_le hj), Nat.div_eq_of_lt (Nat.lt_succ_of_le hb)] at h1
      omega
    subst hi
    exact ⟨rfl, by omega⟩
  · rintro ⟨rfl, rfl⟩
    rfl

omit [LinearOrderedField K] in
theorem hasVertex_first (N a b i j : Nat) (hb : b < N) (hj : j ≤ N) :
    hasVertex (i * (N + 1) + j)
        (a * (N + 1) + b, a * (N + 1) + b + 1, a * (N + 1) + b + N + 1) = true ↔
      (i = a ∧ j = b) ∨ (i = a ∧ j = b + 1) ∨ (i = a + 1 ∧ j = b) := by
  have e1 : a * (N + 1) + b + 1 = a * (N + 1) + (b + 1) := by ring
  have e2 : a * (N + 1) + b + N + 1 = (a + 1) * (N + 1) + b := by ring
  rw [e1, e2]
  simp only [hasVertex, Bool.or_eq_true, beq_iff_eq]
  rw [index_eq_iff N a b i j (by omega) hj, index_eq_iff N a (b + 1) i j (by omega) hj,
    index_eq_iff N (a + 1) b i j (by omega) hj]
  tauto

omit [LinearOrderedField K] in
theorem hasVertex_second (N a b i j : Nat) (hb : b < N) (hj : j ≤ N) :
    hasVertex (i * (N + 1) + j)
        (a * (N + 1) + b + 1, a * (N + 1) + b + N + 2, a * (N + 1) + b + N + 1) = true ↔
      (i = a ∧ j = b + 1) ∨ (i = a + 1 ∧ j = b + 1) ∨ (i = a + 1 ∧ j = b) := by
  have e1 : a * (N + 1) + b + 1 = a * (N + 1) + (b + 1) := by ring
  have e2 : a * (N + 1) + b + N + 1 = (a + 1) * (N + 1) + b := by ring
  have e3 : a * (N + 1) + b + N + 2 = (a + 1) * (N + 1) + (b + 1) := by ring
  rw [e1, e2, e3]
  simp only [hasVertex, Bool.or_eq_true, beq_iff_eq]
  rw [index_eq_iff N a (b + 1) i j (by omega) hj,
    index_eq_iff N (a + 1) (b + 1) i j (by omega) hj,
    index_eq_iff N (a + 1) b i j (by omega) hj]
  tauto

omit [LinearOrderedField K] in
theorem countP_cellTriangles (N a b i j : Nat) (hb : b < N) (hj : j ≤ N) :
    (cellTriangles N a b).countP (hasVertex (i * (N + 1) + j)) =
      (if i = a + 0 ∧ j = b + 0 then 1 else 0) + (if i = a + 0 ∧ j = b + 1 then 2 else 0)
        + (if i = a + 1 ∧ j = b + 0 then 2 else 0)
        + (if i = a + 1 ∧ j = b + 1 then 1 else 0) := by
  simp only [cellTriangles, List.countP_cons, List.countP_nil,
    hasVertex_first N a b i j hb hj, hasVertex_second N a b i j hb hj]
  split_ifs <;> omega

omit [LinearOrderedField K] in
theorem sum_indicator (n j d c : Nat) :
    (∑ b in Finset.range n, if j = b + d then c else 0) =
      if d ≤ j ∧ j < n + d then c else 0 := by
  induction n with
  | zero =>
    rw [Finset.sum_range_zero, if_neg (by omega)]
  | succ n ih =>
    rw [Finset.sum_range_succ, ih]
    split_ifs <;> omega

omit [LinearOrderedField K] in
theorem sum_indicator_two (n i j da db c : Nat) :
    (∑ a in Finset.range n, ∑ b in Finset.range n,
        if i = a + da ∧ j = b + db then c else 0) =
      if (da ≤ i ∧ i < n + da) ∧ (db ≤ j ∧ j < n + db) then c else 0 := by
  have inner : ∀ a, (∑ b in Finset.range n, if i = a + da ∧ j = b + db then c else 0) =
      if i = a + da then (if db ≤ j ∧ j < n + db then c else 0) else 0 := by
    intro a
    by_cases h : i = a + da
    · simp only [h, true_and, if_true]
      exact sum_indicator n j db c
    · simp only [h, false_and, if_false, Finset.sum_const_zero]
  simp only [inner]
  rw [sum_indicator n i da]
  split_ifs <;> first | rfl | tauto

theorem countP_generatePatch (sqrt : K → K) (cp : ControlGrid K) (N i j : Nat)
    (hi : i ≤ N) (hj : j ≤ N) :
    (trianglesOf (generatePatch sqrt cp N).indices).countP (hasVertex (i * (N + 1) + j)) =
      (if i < N ∧ j < N then 1 else 0) + (if i < N ∧ 1 ≤ j then 2 else 0)
        + (if 1 ≤ i ∧ j < N then 2 else 0) + (if 1 ≤ i ∧ 1 ≤ j then 1 else 0) := by
  rw [generatePatch_triangles, countP_blocks]
  simp only [countP_blocks]
  rw [Finset.sum_congr rfl (fun a _ => Finset.sum_congr rfl (fun b hb =>
    countP_cellTriangles N a b i j (Finset.mem_range.mp hb) hj))]
  simp only [Finset.sum_add_distrib, sum_indicator_two]
  split_ifs <;> omega

/-- C20. At every level `N ≥ 1`, the number of emitted triangles that contain the
vertex `(i, j)` is 6 inside the grid, 3 on the boundary away from the corners, 1 at the
corners `(0, 0)` and `(N, N)`, 2 at the corners `(0, N)` and `(N, 0)`; every such
triangle is one of the two triangles of a cell `(i, j)`, `(i, j-1)`, `(i-1, j)` or
`(i-1, j-1)` that lies in the grid. -/
theorem triangles_around_vertex (sqrt : K → K) (cp : ControlGrid K) (N : Nat) (hN : 1 ≤ N)
    (i j : Nat) (hi : i ≤ N) (hj : j ≤ N) :
    ((0 < i ∧ i < N ∧ 0 < j ∧ j < N) →
      (trianglesOf (generatePatch sqrt cp N).indices).countP
        (hasVertex (i * (N + 1) + j)) = 6)
    ∧ (((i = 0 ∨ i = N) ∧ 0 < j ∧ j < N) ∨ ((j = 0 ∨ j = N) ∧ 0 < i ∧ i < N) →
      (trianglesOf (generatePatch sqrt cp N).indices).countP
        (hasVertex (i * (N + 1) + j)) = 3)
    ∧ ((i = 0 ∧ j = 0) ∨ (i = N ∧ j = N) →
      (trianglesOf (generatePatch sqrt cp N).indices).countP
        (hasVertex (i * (N + 1) + j)) = 1)
    ∧ ((i = 0 ∧ j = N) ∨ (i = N ∧ j = 0) →
      (trianglesOf (generatePatch sqrt cp N).indices).countP
        (hasVertex (i * (N + 1) + j)) = 2)
    ∧ ∀ t ∈ trianglesOf (generatePatch sqrt cp N).indices,
        hasVertex (i * (N + 1) + j) t = true →
        ∃ a b, a < N ∧ b < N ∧ t ∈ cellTriangles N a b
          ∧ ((a = i ∧ b = j) ∨ (a = i ∧ b + 1 = j) ∨ (a + 1 = i ∧ b = j)
            ∨ (a + 1 = i ∧ b + 1 = j)) := by
  have hc := countP_generatePatch sqrt cp N i j hi hj
  refine ⟨?_, ?_, ?_, ?_, ?_⟩
  · intro h
    rw [hc]
    split_ifs <;> omega
  · intro h
    rw [hc]
    split_ifs <;> omega
  · intro h
    rw [hc]
    split_ifs <;> omega
  · intro h
    rw [hc]
    split_ifs <;> omega
  · intro t ht hv
    rw [generatePatch_triangles] at ht
    obtain ⟨a, ha, ht⟩ := (mem_blocks _ _ _).mp ht
    obtain ⟨b, hb, ht⟩ := (mem_blocks _ _ _).mp ht
    refine ⟨a, b, ha, hb, ht, ?_⟩
    simp only [cellTriangles, List.mem_cons, List.mem_singleton, List.not_mem_nil,
      or_false] at ht
    rcases ht with rfl | rfl
    · have h := (hasVertex_first N a b i j hb hj).mp hv
      omega
    · have h := (hasVertex_second N a b i j hb hj).mp hv
      omega

/-! ### Winding -/

omit [LinearOrderedField K] in
theorem gridRow_index (N i j : Nat) (hj : j ≤ N) : gridRow N (i * (N + 1) + j) = (i : Int) := by
  unfold gridRow
  rw [Nat.add_comm, Nat.add_mul_div_right _ _ (Nat.succ_pos N),
    Nat.div_eq_of_lt (Nat.lt_succ_of_le hj), Nat.zero_add]

omit [LinearOrderedField K] in
theorem gridCol_index (N i j : Nat) (hj : j ≤ N) : gridCol N (i * (N + 1) + j) = (j : Int) := by
  unfold gridCol
  rw [Nat.add_comm, Nat.add_mul_mod_self_right, Nat.mod_eq_of_lt (Nat.lt_succ_of_le hj)]

omit [LinearOrderedField K] in
theorem signedArea2_cell (N i j : Nat) (hj : j < N) :
    signedArea2 N (i * (N + 1) + j, i * (N + 1) + j + 1, i * (N + 1) + j + N + 1) = -1
    ∧ signedArea2 N
        (i * (N + 1) + j + 1, i * (N + 1) + j + N + 2, i * (N + 1) + j + N + 1) = -1 := by
  have e1 : i * (N + 1) + j + 1 = i * (N + 1) + (j + 1) := by ring
  have e2 : i * (N + 1) + j + N + 1 = (i + 1) * (N + 1) + j := by ring
  have e3 : i * (N + 1) + j + N + 2 = (i + 1) * (N + 1) + (j + 1) := by ring
  rw [e1, e2, e3]
  simp only [signedArea2, gridRow_index N i j (by omega), gridCol_index N i j (by omega),
    gridRow_index N i (j + 1) (by omega), gridCol_index N i (j + 1) (by omega),
    gridRow_index N (i + 1) j (by omega), gridCol_index N (i + 1) j (by omega),
    gridRow_index N (i + 1) (j + 1) (by omega), gridCol_index N (i + 1) (j + 1) (by omega)]
  constructor <;> push_cast <;> ring

/-- C21. At every level `N ≥ 1` and for every cell `(i, j)`, the two emitted triangles
`(idx, idxRight, idxDown)` and `(idxRight, idxDiag, idxDown)` have, from the integer
grid coordinates of their vertices in emitted order, the same non-zero doubled signed
area `-1`: the same sign within a cell and across all cells, and for every triangle of
the index list. -/
theorem consistent_winding (sqrt : K → K) (cp : ControlGrid K) (N : Nat) (_hN : 1 ≤ N) :
    (∀ i j, i < N → j < N →
      signedArea2 N (i * (N + 1) + j, i * (N + 1) + j + 1, i * (N + 1) + j + N + 1) = -1
      ∧ signedArea2 N
          (i * (N + 1) + j + 1, i * (N + 1) + j + N + 2, i * (N + 1) + j + N + 1) = -1)
    ∧ (∀ i j, i < N → j < N →
        (i * (N + 1) + j, i * (N + 1) + j + 1, i * (N + 1) + j + N + 1)
          ∈ trianglesOf (generatePatch sqrt cp N).indices
        ∧ (i * (N + 1) + j + 1, i * (N + 1) + j + N + 2, i * (N + 1) + j + N + 1)
          ∈ trianglesOf (generatePatch sqrt cp N).indices)
    ∧ ∀ t ∈ trianglesOf (generatePatch sqrt cp N).indices, signedArea2 N t = -1 := by
  refine ⟨fun i j _ hj => signedArea2_cell N i j hj, ?_, ?_⟩
  · intro i j hi hj
    rw [generatePatch_triangles]
    constructor
    · exact (mem_blocks _ _ _).mpr ⟨i, hi, (mem_blocks _ _ _).mpr ⟨j, hj, by
        simp [cellTriangles]⟩⟩
    · exact (mem_blocks _ _ _).mpr ⟨i, hi, (mem_blocks _ _ _).mpr ⟨j, hj, by
        simp [cellTriangles]⟩⟩
  · intro t ht
    rw [generatePatch_triangles] at ht
    obtain ⟨i, _, ht⟩ := (mem_blocks _ _ _).mp ht
    obtain ⟨j, hj, ht⟩ := (mem_blocks _ _ _).mp ht
    simp only [cellTriangles, List.mem_cons, List.mem_singleton, List.not_mem_nil,
      or_false] at ht
    rcases ht with rfl | rfl
    · exact (signedArea2_cell N i j hj).1
    · exact (signedArea2_cell N i j hj).2

/-! ### Bounds on the reachable states -/

omit [LinearOrderedField K] in
/-- On values that are not negative, the `Nat` arithmetic of the handlers is the `int`
arithmetic of the source: `%` (truncated in C), `std::min` and `std::max`. -/
theorem nat_arithmetic_is_int_arithmetic (n : Nat) :
    (((n + 15) % 16 : Nat) : Int) = Int.tmod ((n : Int) + 15) 16
    ∧ (((n + 1) % 16 : Nat) : Int) = Int.tmod ((n : Int) + 1) 16
    ∧ ((min (n + 1) 50 : Nat) : Int) = min ((n : Int) + 1) 50
    ∧ ((max (n - 1) 1 : Nat) : Int) = max ((n : Int) - 1) 1 := by
  refine ⟨?_, ?_, ?_, ?_⟩
  · rw [Int.tmod_eq_emod (by omega) (by decide)]
    omega
  · rw [Int.tmod_eq_emod (by omega) (by decide)]
    omega
  · omega
  · omega

theorem movePoint_selection_level (keys : Keys) (s : PatchState K) :
    (movePoint keys s).selectedPoint = s.selectedPoint
    ∧ (movePoint keys s).tessellation = s.tessellation := by
  cases hI : keys.keyI <;> cases hK : keys.keyK <;> cases hJ : keys.keyJ <;>
    cases hL : keys.keyL <;> cases hU : keys.keyU <;> cases hO : keys.keyO <;>
    simp [movePoint, translateSelected, hI, hK, hJ, hL, hU, hO]

theorem commandReachable_bounds (sqrt : K → K) (s : PatchState K)
    (h : CommandReachable sqrt s) :
    s.selectedPoint < 16 ∧ 1 ≤ s.tessellation ∧ s.tessellation ≤ 50 := by
  induction h with
  | init => refine ⟨?_, ?_, ?_⟩ <;> simp [initialState]
  | start => refine ⟨?_, ?_, ?_⟩ <;> simp [startState, initialState]
  | selectPrevious key t _ ih =>
    unfold selectPrevious
    split_ifs
    · exact ⟨Nat.mod_lt _ (by decide), ih.2⟩
    · exact ih
    · exact ih
  | selectNext key t _ ih =>
    unfold selectNext
    split_ifs
    · exact ⟨Nat.mod_lt _ (by decide), ih.2⟩
    · exact ih
    · exact ih
  | movePoint keys t _ ih =>
    rw [(movePoint_selection_level keys t).1, (movePoint_selection_level keys t).2]
    exact ih
  | tessellationUp key t _ ih =>
    unfold tessellationUp
    split_ifs
    · refine ⟨ih.1, ?_, ?_⟩
      · show 1 ≤ min (t.tessellation + 1) 50
        omega
      · show min (t.tessellation + 1) 50 ≤ 50
        omega
    · exact ih
    · exact ih
  | tessellationDown key t _ ih =>
    unfold tessellationDown
    split_ifs
    · refine ⟨ih.1, ?_, ?_⟩
      · show 1 ≤ max (t.tessellation - 1) 1
        omega
      · show max (t.tessellation - 1) 1 ≤ 50
        omega
    · exact ih
    · exact ih
  | commit t _ ih =>
    unfold commitIfDirty
    split_ifs
    · exact ih
    · exact ih

theorem accumulatePatch_vertices_length (sqrt : K → K) (cp : ControlGrid K) (N : Nat) :
    (accumulatePatch sqrt cp N).vertices.length = (N + 1) * (N + 1) := by
  have h := generatePatch_vertices sqrt cp N
  have e : (accumulatePatch sqrt cp N).vertices = (generatePatch sqrt cp N).vertices := rfl
  rw [e, h, blocks_length _ ((N + 1) * 1) (fun i =>
    blocks_length (fun j => [evaluateBezier cp ((i : K) / (N : K)) ((j : K) / (N : K))])
      1 (fun _ => rfl) _)]
  simp

/-- C22. In every state that the commands can produce from the initial state
(`selectedPoint = 0`, `tessellation = 10`), `selectedPoint` is in `[0, 15]` and
`tessellation` in `[1, 50]`. Hence `controlPoints[selectedPoint]` is in bounds, so is
`controlPoints[i*4+j]` for `i, j < 4`, so are `vertices[idx]`, `vertices[idxRight]`,
`vertices[idxDown]`, `vertices[idxDiag]` and the same reads and writes of `normals` in
every cell of `generatePatch` (both vectors have their `(N+1)^2` entries before the cell
loops start), and the divisor `(float)tessellation` is not zero. -/
theorem reachable_state_bounds (sqrt : K → K) (s : PatchState K)
    (h : CommandReachable sqrt s) :
    (0 ≤ (s.selectedPoint : Int) ∧ s.selectedPoint < 16)
    ∧ (1 ≤ s.tessellation ∧ s.tessellation ≤ 50)
    ∧ (∀ i j, i < 4 → j < 4 → i * 4 + j < 16)
    ∧ (∀ i j, i < s.tessellation → j < s.tessellation →
        ∀ k ∈ [i * (s.tessellation + 1) + j, i * (s.tessellation + 1) + j + 1,
               i * (s.tessellation + 1) + j + s.tessellation + 1,
               i * (s.tessellation + 1) + j + s.tessellation + 2],
          k < (accumulatePatch sqrt s.controlPoints s.tessellation).vertices.length
          ∧ k < (accumulatePatch sqrt s.controlPoints s.tessellation).normals.length)
    ∧ ((s.tessellation : K) ≠ 0) := by
  obtain ⟨hs, hlo, hhi⟩ := commandReachable_bounds sqrt s h
  refine ⟨⟨Int.natCast_nonneg _, hs⟩, ⟨hlo, hhi⟩, ?_, ?_, ?_⟩
  · intro i j hi hj
    omega
  · intro i j hi hj k hk
    rw [accumulatePatch_vertices_length, accumulatePatch_normals_length]
    have h1 : (i + 1) * (s.tessellation + 1) ≤ s.tessellation * (s.tessellation + 1) :=
      Nat.mul_le_mul_right _ hi
    have h2 : (s.tessellation + 1) * (s.tessellation + 1) =
        s.tessellation * (s.tessellation + 1) + (s.tessellation + 1) :=
      Nat.succ_mul _ _
    have h3 : (i + 1) * (s.tessellation + 1) =
        i * (s.tessellation + 1) + (s.tessellation + 1) := Nat.succ_mul _ _
    simp only [List.mem_cons, List.mem_singleton, List.not_mem_nil, or_false] at hk
    omega
  · exact Nat.cast_ne_zero.mpr (by omega)

/-! ### Convex hull -/

theorem B_nonneg (i : Nat) (hi : i < 4) (t : K) (h0 : 0 ≤ t) (h1 : t ≤ 1) : 0 ≤ B i t := by
  have h2 : 0 ≤ 1 - t := sub_nonneg.mpr h1
  interval_cases i
  · rw [B_zero]
    positivity
  · rw [B_one]
    positivity
  · rw [B_two]
    positivity
  · rw [B_three]
    positivity

theorem B_sum_one (t : K) : B 0 t + B 1 t + B 2 t + B 3 t = 1 := by
  rw [B_zero, B_one, B_two, B_three]
  ring

theorem Vec3.coord_add (c : Axis) (a b : Vec3 K) :
    (a + b).coord c = a.coord c + b.coord c := by
  cases c <;> rfl

theorem Vec3.coord_smul (c : Axis) (r : K) (a : Vec3 K) :
    (r • a).coord c = r * a.coord c := by
  cases c <;> rfl

theorem Vec3.coord_zero (c : Axis) : (0 : Vec3 K).coord c = 0 := by
  cases c <;> rfl

theorem convex_four (w0 w1 w2 w3 x0 x1 x2 x3 lo hi : K) (h0 : 0 ≤ w0) (h1 : 0 ≤ w1)
    (h2 : 0 ≤ w2) (h3 : 0 ≤ w3) (hs : w0 + w1 + w2 + w3 = 1)
    (hx0 : lo ≤ x0 ∧ x0 ≤ hi) (hx1 : lo ≤ x1 ∧ x1 ≤ hi) (hx2 : lo ≤ x2 ∧ x2 ≤ hi)
    (hx3 : lo ≤ x3 ∧ x3 ≤ hi) :
    lo ≤ w0 * x0 + w1 * x1 + w2 * x2 + w3 * x3
    ∧ w0 * x0 + w1 * x1 + w2 * x2 + w3 * x3 ≤ hi := by
  have el : lo * (w0 + w1 + w2 + w3) = lo := by rw [hs, mul_one]
  have eh : hi * (w0 + w1 + w2 + w3) = hi := by rw [hs, mul_one]
  have a0 := mul_nonneg h0 (sub_nonneg.mpr hx0.1)
  have a1 := mul_nonneg h1 (sub_nonneg.mpr hx1.1)
  have a2 := mul_nonneg h2 (sub_nonneg.mpr hx2.1)
  have a3 := mul_nonneg h3 (sub_nonneg.mpr hx3.1)
  have b0 := mul_nonneg h0 (sub_nonneg.mpr hx0.2)
  have b1 := mul_nonneg h1 (sub_nonneg.mpr hx1.2)
  have b2 := mul_nonneg h2 (sub_nonneg.mpr hx2.2)
  have b3 := mul_nonneg h3 (sub_nonneg.mpr hx3.2)
  constructor <;> nlinarith

theorem evaluateBezier_coord_bounds (cp : ControlGrid K) (c : Axis) (lo hi : K)
    (h : ∀ k, lo ≤ (cp k).coord c ∧ (cp k).coord c ≤ hi) (u v : K)
    (hu0 : 0 ≤ u) (hu1 : u ≤ 1) (hv0 : 0 ≤ v) (hv1 : v ≤ 1) :
    lo ≤ (evaluateBezier cp u v).coord c ∧ (evaluateBezier cp u v).coord c ≤ hi := by
  have hB : ∀ i, i < 4 → ∀ t : K, 0 ≤ t → t ≤ 1 → 0 ≤ B i t := B_nonneg
  have key : (evaluateBezier cp u v).coord c =
      B 0 u * (B 0 v * (cp 0).coord c + B 1 v * (cp 1).coord c + B 2 v * (cp 2).coord c
        + B 3 v * (cp 3).coord c)
      + B 1 u * (B 0 v * (cp 4).coord c + B 1 v * (cp 5).coord c + B 2 v * (cp 6).coord c
        + B 3 v * (cp 7).coord c)
      + B 2 u * (B 0 v * (cp 8).coord c + B 1 v * (cp 9).coord c + B 2 v * (cp 10).coord c
        + B 3 v * (cp 11).coord c)
      + B 3 u * (B 0 v * (cp 12).coord c + B 1 v * (cp 13).coord c + B 2 v * (cp 14).coord c
        + B 3 v * (cp 15).coord c) := by
    rw [evaluateBezier_unroll]
    simp only [Vec3.coord_add, Vec3.coord_smul, Vec3.coord_zero]
    ring
  rw [key]
  have v0 := hB 0 (by decide) v hv0 hv1
  have v1 := hB 1 (by decide) v hv0 hv1
  have v2 := hB 2 (by decide) v hv0 hv1
  have v3 := hB 3 (by decide) v hv0 hv1
  exact convex_four _ _ _ _ _ _ _ _ lo hi (hB 0 (by decide) u hu0 hu1)
    (hB 1 (by decide) u hu0 hu1) (hB 2 (by decide) u hu0 hu1) (hB 3 (by decide) u hu0 hu1)
    (B_sum_one u)
    (convex_four _ _ _ _ _ _ _ _ lo hi v0 v1 v2 v3 (B_sum_one v) (h 0) (h 1) (h 2) (h 3))
    (convex_four _ _ _ _ _ _ _ _ lo hi v0 v1 v2 v3 (B_sum_one v) (h 4) (h 5) (h 6) (h 7))
    (convex_four _ _ _ _ _ _ _ _ lo hi v0 v1 v2 v3 (B_sum_one v) (h 8) (h 9) (h 10) (h 11))
    (convex_four _ _ _ _ _ _ _ _ lo hi v0 v1 v2 v3 (B_sum_one v) (h 12) (h 13) (h 14)
      (h 15))

theorem generatePatch_vertex_mem (sqrt : K → K) (cp : ControlGrid K) (N : Nat)
    (p : Vec3 K) (hp : p ∈ (generatePatch sqrt cp N).vertices) :
    ∃ i j, i ≤ N ∧ j ≤ N ∧
      p = evaluateBezier cp ((i : K) / (N : K)) ((j : K) / (N : K)) := by
  rw [generatePatch_vertices] at hp
  obtain ⟨i, hi, hp⟩ := (mem_blocks _ _ _).mp hp
  obtain ⟨j, hj, hp⟩ := (mem_blocks _ _ _).mp hp
  exact ⟨i, j, Nat.le_of_lt_succ hi, Nat.le_of_lt_succ hj, List.mem_singleton.mp hp⟩

theorem grid_parameter_unit (N i : Nat) (hN : 1 ≤ N) (hi : i ≤ N) :
    0 ≤ (i : K) / (N : K) ∧ (i : K) / (N : K) ≤ 1 := by
  have hpos : (0 : K) < (N : K) := Nat.cast_pos.mpr (by omega)
  constructor
  · exact div_nonneg (Nat.cast_nonneg i) hpos.le
  · rw [div_le_one hpos]
    exact Nat.cast_le.mpr hi

/-- C23 (in exact arithmetic). For `t` in `[0, 1]` the four values `B(i, t)` are not
negative; so for `(u, v)` in the unit square each coordinate of `evaluateBezier(u, v)`
lies between the minimum and the maximum of that coordinate over the sixteen control
points, and at every level `N ≥ 1` the same holds for every vertex that `generatePatch`
produces. The functions are the exact ones: the rounded sum can leave the hull. -/
theorem convex_hull_bound (sqrt : K → K) (cp : ControlGrid K) (c : Axis) (u v t : K)
    (ht0 : 0 ≤ t) (ht1 : t ≤ 1) (hu0 : 0 ≤ u) (hu1 : u ≤ 1) (hv0 : 0 ≤ v) (hv1 : v ≤ 1)
    (N : Nat) (hN : 1 ≤ N) :
    (∀ i : Fin 4, 0 ≤ B i.val t)
    ∧ (Finset.univ.inf' Finset.univ_nonempty (fun k => (cp k).coord c)
          ≤ (evaluateBezier cp u v).coord c
        ∧ (evaluateBezier cp u v).coord c
          ≤ Finset.univ.sup' Finset.univ_nonempty (fun k => (cp k).coord c))
    ∧ ∀ p ∈ (generatePatch sqrt cp N).vertices,
        Finset.univ.inf' Finset.univ_nonempty (fun k => (cp k).coord c) ≤ p.coord c
        ∧ p.coord c ≤ Finset.univ.sup' Finset.univ_nonempty (fun k => (cp k).coord c) := by
  have hk : ∀ k : Fin 16,
      Finset.univ.inf' Finset.univ_nonempty (fun k => (cp k).coord c) ≤ (cp k).coord c
      ∧ (cp k).coord c ≤ Finset.univ.sup' Finset.univ_nonempty (fun k => (cp k).coord c) :=
    fun k => ⟨Finset.inf'_le _ (Finset.mem_univ k),
      Finset.le_sup' (fun k => (cp k).coord c) (Finset.mem_univ k)⟩
  refine ⟨fun i => B_nonneg i.val i.isLt t ht0 ht1, ?_, ?_⟩
  · exact evaluateBezier_coord_bounds cp c _ _ hk u v hu0 hu1 hv0 hv1
  · intro p hp
    obtain ⟨i, j, hi, hj, rfl⟩ := generatePatch_vertex_mem sqrt cp N p hp
    have hu : 0 ≤ (i : K) / (N : K) ∧ (i : K) / (N : K) ≤ 1 :=
      grid_parameter_unit N i hN hi
    have hv : 0 ≤ (j : K) / (N : K) ∧ (j : K) / (N : K) ≤ 1 :=
      grid_parameter_unit N j hN hj
    exact evaluateBezier_coord_bounds cp c _ _ hk _ _ hu.1 hu.2 hv.1 hv.2

/-! ### Locality of an edit -/

theorem Vec3.bump_coord (ax c : Axis) (delta : K) (p : Vec3 K) :
    (p.bump ax delta).coord c = p.coord c + if c = ax then delta else 0 := by
  cases ax <;> cases c <;> simp [Vec3.bump, Vec3.coord]

theorem evaluateBezier_coord_sum (cp : ControlGrid K) (c : Axis) (u v : K) :
    (evaluateBezier cp u v).coord c =
      ∑ i in Finset.range 4, ∑ j in Finset.range 4,
        B i u * B j v * (cp.at (i * 4 + j)).coord c := by
  simp only [evaluateBezier, forLoop, Finset.sum_range_succ, Finset.sum_range_zero,
    Vec3.coord_add, Vec3.coord_smul, Vec3.coord_zero]
  ring

omit [LinearOrderedField K] in
theorem sum_single_two {M : Type} [AddCommMonoid M] (n a b : Nat) (ha : a < n) (hb : b < n)
    (f : Nat → Nat → M) :
    (∑ i in Finset.range n, ∑ j in Finset.range n, if i = a ∧ j = b then f i j else 0) =
      f a b := by
  rw [Finset.sum_eq_single a]
  · rw [Finset.sum_eq_single b]
    · simp
    · intro j _ hj
      simp [hj]
    · intro h
      exact absurd (Finset.mem_range.mpr hb) h
  · intro i _ hi
    simp [hi]
  · intro h
    exact absurd (Finset.mem_range.mpr ha) h

theorem at_translate (cp : ControlGrid K) (m : Nat) (ax : Axis) (delta : K) (k : Nat)
    (hk : k < 16) :
    ControlGrid.at (fun q => if q.val = m then (cp q).bump ax delta else cp q) k =
      if k = m then (cp.at k).bump ax delta else cp.at k := by
  unfold ControlGrid.at
  rw [dif_pos hk, dif_pos hk]

theorem evaluateBezier_translate (cp : ControlGrid K) (a b : Nat) (ha : a < 4) (hb : b < 4)
    (ax c : Axis) (delta u v : K) :
    (evaluateBezier (fun k => if k.val = 4 * a + b then (cp k).bump ax delta else cp k)
        u v).coord c =
      (evaluateBezier cp u v).coord c + if c = ax then delta * B a u * B b v else 0 := by
  rw [evaluateBezier_coord_sum, evaluateBezier_coord_sum]
  have hterm : ∀ i ∈ Finset.range 4, ∀ j ∈ Finset.range 4,
      B i u * B j v * ((ControlGrid.at (fun k => if k.val = 4 * a + b
          then (cp k).bump ax delta else cp k) (i * 4 + j)).coord c) =
        B i u * B j v * (cp.at (i * 4 + j)).coord c
          + if i = a ∧ j = b then B i u * B j v * (if c = ax then delta else 0) else 0 := by
    intro i hi j hj
    have hi4 : i < 4 := Finset.mem_range.mp hi
    have hj4 : j < 4 := Finset.mem_range.mp hj
    have hk : i * 4 + j < 16 := by omega
    rw [at_translate cp (4 * a + b) ax delta (i * 4 + j) hk]
    by_cases h : i = a ∧ j = b
    · have e : i * 4 + j = 4 * a + b := by omega
      rw [if_pos e, if_pos h, Vec3.bump_coord]
      ring
    · have e : ¬ i * 4 + j = 4 * a + b := by omega
      rw [if_neg e, if_neg h, add_zero]
  rw [Finset.sum_congr rfl (fun i hi => Finset.sum_congr rfl (fun j hj => hterm i hi j hj))]
  simp only [Finset.sum_add_distrib]
  rw [sum_single_two 4 a b ha hb (fun i j => B i u * B j v * (if c = ax then delta else 0))]
  congr 1
  split_ifs <;> ring

theorem generatePatch_vertex_value (sqrt : K → K) (cp : ControlGrid K) (N i j : Nat)
    (hi : i ≤ N) (hj : j ≤ N) :
    (generatePatch sqrt cp N).vertices[i * (N + 1) + j]? =
      some (evaluateBezier cp ((i : K) / (N : K)) ((j : K) / (N : K))) := by
  have h2 := blocks_getElem? (fun j =>
    [evaluateBezier cp ((i : K) / (N : K)) ((j : K) / (N : K))]) 1 (fun _ => rfl)
    (N + 1) j 0 (Nat.lt_succ_of_le hj) Nat.zero_lt_one
  simp only [Nat.mul_one, Nat.add_zero] at h2
  rw [generatePatch_vertices_row sqrt cp N i j hi hj, h2]
  rfl

/-- C24 (in exact arithmetic). When the control point `k = 4*a + b` is moved by `delta`
along one axis and the level `N` stays, then for all `i, j ≤ N` the mesh vertex at
`i*(N+1)+j` changes by exactly `delta * B(a, i/N) * B(b, j/N)` along that axis and not
at all along the other two, and the index list stays as it was. The functions are the
exact ones: a rounded vertex can stay where the increment is positive. -/
theorem edit_locality (sqrt : K → K) (s : PatchState K) (a b : Nat) (ha : a < 4)
    (hb : b < 4) (hs : s.selectedPoint = 4 * a + b) (ax : Axis) (delta : K)
    (_hN : 1 ≤ s.tessellation) (i j : Nat) (hi : i ≤ s.tessellation)
    (hj : j ≤ s.tessellation) :
    ∃ p q : Vec3 K,
      (generatePatch sqrt s.controlPoints s.tessellation).vertices[
          i * (s.tessellation + 1) + j]? = some p
      ∧ (commitIfDirty sqrt (moveSelected ax delta s)).mesh.vertices[
          i * (s.tessellation + 1) + j]? = some q
      ∧ (∀ c : Axis, q.coord c = p.coord c +
          if c = ax then
            delta * B a ((i : K) / (s.tessellation : K)) * B b ((j : K) / (s.tessellation : K))
          else 0)
      ∧ (commitIfDirty sqrt (moveSelected ax delta s)).mesh.indices =
          (generatePatch sqrt s.controlPoints s.tessellation).indices
      ∧ (commitIfDirty sqrt (moveSelected ax delta s)).tessellation = s.tessellation := by
  have hmesh : (commitIfDirty sqrt (moveSelected ax delta s)).mesh =
      generatePatch sqrt (fun k => if k.val = 4 * a + b
        then (s.controlPoints k).bump ax delta else s.controlPoints k) s.tessellation := by
    simp [commitIfDirty, moveSelected, translateSelected, hs]
  have htess : (commitIfDirty sqrt (moveSelected ax delta s)).tessellation =
      s.tessellation := by
    simp [commitIfDirty, moveSelected, translateSelected]
  refine ⟨evaluateBezier s.controlPoints ((i : K) / (s.tessellation : K))
      ((j : K) / (s.tessellation : K)),
    evaluateBezier (fun k => if k.val = 4 * a + b
      then (s.controlPoints k).bump ax delta else s.controlPoints k)
      ((i : K) / (s.tessellation : K)) ((j : K) / (s.tessellation : K)),
    generatePatch_vertex_value sqrt s.controlPoints s.tessellation i j hi hj,
    ?_, ?_, ?_, htess⟩
  · rw [hmesh]
    exact generatePatch_vertex_value sqrt _ s.tessellation i j hi hj
  · intro c
    exact evaluateBezier_translate s.controlPoints a b ha hb ax c delta _ _
  · rw [hmesh, generatePatch_indices, generatePatch_indices]

/-! ### The textured patch of `main.cpp` -/

theorem Main.evaluateBezier_eq (cp : ControlGrid K) (u v : K) :
    Main.evaluateBezier cp u v = evaluateBezier cp u v := rfl

theorem Main.vertex_loops (cp : ControlGrid K) (patch : TexturedBezierPatch K) (a : Nat) :
    (forLoop (fun i p => forLoop (fun j p => Main.pushTexturedVertex cp i j p)
        (p.tessellation + 1) p) a patch).tessellation = patch.tessellation
    ∧ (forLoop (fun i p => forLoop (fun j p => Main.pushTexturedVertex cp i j p)
        (p.tessellation + 1) p) a patch).vertices =
        patch.vertices ++ blocks (fun i => blocks (fun j =>
          [evaluateBezier cp ((i : K) / (patch.tessellation : K))
            ((j : K) / (patch.tessellation : K))]) (patch.tessellation + 1)) a
    ∧ (forLoop (fun i p => forLoop (fun j p => Main.pushTexturedVertex cp i j p)
        (p.tessellation + 1) p) a patch).texCoords =
        patch.texCoords ++ blocks (fun i => blocks (fun j =>
          [((i : K) / (patch.tessellation : K), (j : K) / (patch.tessellation : K))])
          (patch.tessellation + 1)) a
    ∧ (forLoop (fun i p => forLoop (fun j p => Main.pushTexturedVertex cp i j p)
        (p.tessellation + 1) p) a patch).indices = patch.indices := by
  refine forLoop_invariant (fun k p => p.tessellation = patch.tessellation
    ∧ p.vertices = patch.vertices ++ blocks (fun i => blocks (fun j =>
          [evaluateBezier cp ((i : K) / (patch.tessellation : K))
            ((j : K) / (patch.tessellation : K))]) (patch.tessellation + 1)) k
    ∧ p.texCoords = patch.texCoords ++ blocks (fun i => blocks (fun j =>
          [((i : K) / (patch.tessellation : K), (j : K) / (patch.tessellation : K))])
          (patch.tessellation + 1)) k
    ∧ p.indices = patch.indices)
    (fun i p => forLoop (fun j p => Main.pushTexturedVertex cp i j p)
      (p.tessellation + 1) p) a patch ?_ ?_
  · simp [blocks]
  · intro i _ t ht
    obtain ⟨h1, h2, h3, h4⟩ := ht
    simp only [h1]
    have inner := forLoop_invariant (fun k p => p.tessellation = patch.tessellation
      ∧ p.vertices = t.vertices ++ blocks (fun j =>
          [evaluateBezier cp ((i : K) / (patch.tessellation : K))
            ((j : K) / (patch.tessellation : K))]) k
      ∧ p.texCoords = t.texCoords ++ blocks (fun j =>
          [((i : K) / (patch.tessellation : K), (j : K) / (patch.tessellation : K))]) k
      ∧ p.indices = patch.indices)
      (fun j p => Main.pushTexturedVertex cp i j p) (patch.tessellation + 1) t
      (by simp [blocks, h1, h4]) (by
        intro j _ q hq
        obtain ⟨q1, q2, q3, q4⟩ := hq
        refine ⟨q1, ?_, ?_, q4⟩
        · simp only [Main.pushTexturedVertex, q1, q2, blocks, List.append_assoc]
        · simp only [Main.pushTexturedVertex, q1, q3, blocks, List.append_assoc])
    obtain ⟨i1, i2, i3, i4⟩ := inner
    refine ⟨i1, ?_, ?_, i4⟩
    · rw [i2, h2, List.append_assoc]
      rfl
    · rw [i3, h3, List.append_assoc]
      rfl

omit [LinearOrderedField K] in
theorem Main.index_loops (patch : TexturedBezierPatch K) (a : Nat) :
    (forLoop (fun i p => forLoop (fun j p => Main.pushCellIndices i j p) p.tessellation p)
        a patch).tessellation = patch.tessellation
    ∧ (forLoop (fun i p => forLoop (fun j p => Main.pushCellIndices i j p) p.tessellation p)
        a patch).vertices = patch.vertices
    ∧ (forLoop (fun i p => forLoop (fun j p => Main.pushCellIndices i j p) p.tessellation p)
        a patch).texCoords = patch.texCoords
    ∧ (forLoop (fun i p => forLoop (fun j p => Main.pushCellIndices i j p) p.tessellation p)
        a patch).indices =
        patch.indices ++ blocks (fun i => blocks (fun j =>
          cellIndices patch.tessellation i j) patch.tessellation) a := by
  refine forLoop_invariant (fun k p => p.tessellation = patch.tessellation
    ∧ p.vertices = patch.vertices ∧ p.texCoords = patch.texCoords
    ∧ p.indices = patch.indices ++ blocks (fun i => blocks (fun j =>
          cellIndices patch.tessellation i j) patch.tessellation) k)
    (fun i p => forLoop (fun j p => Main.pushCellIndices i j p) p.tessellation p)
    a patch ?_ ?_
  · simp [blocks]
  · intro i _ t ht
    obtain ⟨h1, h2, h3, h4⟩ := ht
    simp only [h1]
    have inner := forLoop_invariant (fun k p => p.tessellation = patch.tessellation
      ∧ p.vertices = patch.vertices ∧ p.texCoords = patch.texCoords
      ∧ p.indices = t.indices ++ blocks (fun j => cellIndices patch.tessellation i j) k)
      (fun j p => Main.pushCellIndices i j p) patch.tessellation t
      (by simp [blocks, h1, h2, h3]) (by
        intro j _ q hq
        obtain ⟨q1, q2, q3, q4⟩ := hq
        refine ⟨q1, q2, q3, ?_⟩
        simp only [Main.pushCellIndices, q1, q4, blocks, cellIndices, List.append_assoc]
        try rfl)
    obtain ⟨i1, i2, i3, i4⟩ := inner
    refine ⟨i1, i2, i3, ?_⟩
    rw [i4, h4, List.append_assoc]
    rfl

theorem Main.generateTexturedBezierPatch_fields (cp : ControlGrid K)
    (patch : TexturedBezierPatch K) :
    (Main.generateTexturedBezierPatch cp patch).tessellation = patch.tessellation
    ∧ (Main.generateTexturedBezierPatch cp patch).vertices =
        blocks (fun i => blocks (fun j =>
          [evaluateBezier cp ((i : K) / (patch.tessellation : K))
            ((j : K) / (patch.tessellation : K))]) (patch.tessellation + 1))
          (patch.tessellation + 1)
    ∧ (Main.generateTexturedBezierPatch cp patch).texCoords =
        blocks (fun i => blocks (fun j =>
          [((i : K) / (patch.tessellation : K), (j : K) / (patch.tessellation : K))])
          (patch.tessellation + 1)) (patch.tessellation + 1)
    ∧ (Main.generateTexturedBezierPatch cp patch).indices =
        blocks (fun i => blocks (fun j => cellIndices patch.tessellation i j)
          patch.tessellation) patch.tessellation := by
  unfold Main.generateTexturedBezierPatch
  simp only []
  have hv := Main.vertex_loops cp
    ({ patch with vertices := [], texCoords := [], indices := [] } : TexturedBezierPatch K)
    (patch.tessellation + 1)
  have hi := Main.index_loops
    (forLoop (fun i p => forLoop (fun j p => Main.pushTexturedVertex cp i j p)
      (p.tessellation + 1) p) (patch.tessellation + 1)
      ({ patch with vertices := [], texCoords := [], indices := [] }
        : TexturedBezierPatch K))
    patch.tessellation
  simp only [List.nil_append] at hv
  obtain ⟨v1, v2, v3, v4⟩ := hv
  rw [v1] at hi
  simp only [v1]
  obtain ⟨i1, i2, i3, i4⟩ := hi
  refine ⟨i1, ?_, ?_, ?_⟩
  · rw [i2, v2]
  · rw [i3, v3]
  · rw [i4, v4, List.nil_append]

/-- C25 (in exact arithmetic). For the same control grid and the same level `N ≥ 1`,
`generateTexturedBezierPatch` of `main.cpp` produces the vertex list and the index list
of `generatePatch` of `task1.cpp`; its texture-coordinate list has the same length, and
its entry `i*(N+1)+j` is `(i/N, j/N)`. The functions are the exact ones: the rounded
vertex lists differ. -/
theorem textured_patch_equivalent (sqrt : K → K) (cp : ControlGrid K)
    (patch : TexturedBezierPatch K) (_hN : 1 ≤ patch.tessellation) (i j : Nat)
    (hi : i ≤ patch.tessellation) (hj : j ≤ patch.tessellation) :
    (Main.generateTexturedBezierPatch cp patch).vertices =
        (generatePatch sqrt cp patch.tessellation).vertices
    ∧ (Main.generateTexturedBezierPatch cp patch).indices =
        (generatePatch sqrt cp patch.tessellation).indices
    ∧ (Main.generateTexturedBezierPatch cp patch).texCoords.length =
        (generatePatch sqrt cp patch.tessellation).vertices.length
    ∧ (Main.generateTexturedBezierPatch cp patch).texCoords[
          i * (patch.tessellation + 1) + j]? =
        some ((i : K) / (patch.tessellation : K), (j : K) / (patch.tessellation : K)) := by
  obtain ⟨_, hv, ht, hx⟩ := Main.generateTexturedBezierPatch_fields cp patch
  refine ⟨?_, ?_, ?_, ?_⟩
  · rw [hv, generatePatch_vertices]
    rfl
  · rw [hx, generatePatch_indices]
  · rw [ht, generatePatch_vertices,
      blocks_length _ ((patch.tessellation + 1) * 1) (fun i => blocks_length (fun j =>
        [((i : K) / (patch.tessellation : K), (j : K) / (patch.tessellation : K))]) 1
        (fun _ => rfl) _),
      blocks_length _ ((patch.tessellation + 1) * 1) (fun i => blocks_length (fun j =>
        [evaluateBezier cp ((i : K) / (patch.tessellation : K))
          ((j : K) / (patch.tessellation : K))]) 1 (fun _ => rfl) _)]
  · rw [ht]
    have h := blocks_getElem? (fun i => blocks (fun j =>
      [((i : K) / (patch.tessellation : K), (j : K) / (patch.tessellation : K))])
      (patch.tessellation + 1)) ((patch.tessellation + 1) * 1)
      (fun i => blocks_length (fun j =>
        [((i : K) / (patch.tessellation : K), (j : K) / (patch.tessellation : K))]) 1
        (fun _ => rfl) _)
      (patch.tessellation + 1) i j (Nat.lt_succ_of_le hi) (by omega)
    have h2 := blocks_getElem? (fun j =>
      [((i : K) / (patch.tessellation : K), (j : K) / (patch.tessellation : K))]) 1
      (fun _ => rfl) (patch.tessellation + 1) j 0 (Nat.lt_succ_of_le hj) Nat.zero_lt_one
    simp only [Nat.mul_one, Nat.add_zero] at h h2
    rw [h, h2]
    rfl

/-! ### The sphere of `main.cpp` -/

omit [LinearOrderedField K] in
theorem Main.sector_loop (sectors numStacks i n : Nat) (obj : GameObject K) :
    (forLoop (fun _ st => Main.sphereSectorStep numStacks i st) n
        (obj, i * (sectors + 1), i * (sectors + 1) + sectors + 1)).1.vertices = obj.vertices
    ∧ (forLoop (fun _ st => Main.sphereSectorStep numStacks i st) n
        (obj, i * (sectors + 1), i * (sectors + 1) + sectors + 1)).1.indices =
        obj.indices ++ blocks (fun j => sphereCellIndices sectors numStacks i j) n
    ∧ (forLoop (fun _ st => Main.sphereSectorStep numStacks i st) n
        (obj, i * (sectors + 1), i * (sectors + 1) + sectors + 1)).2.1 =
        i * (sectors + 1) + n
    ∧ (forLoop (fun _ st => Main.sphereSectorStep numStacks i st) n
        (obj, i * (sectors + 1), i * (sectors + 1) + sectors + 1)).2.2 =
        i * (sectors + 1) + sectors + 1 + n := by
  refine forLoop_invariant (fun k (st : GameObject K × Nat × Nat) =>
    st.1.vertices = obj.vertices
    ∧ st.1.indices = obj.indices ++ blocks (fun j => sphereCellIndices sectors numStacks i j) k
    ∧ st.2.1 = i * (sectors + 1) + k
    ∧ st.2.2 = i * (sectors + 1) + sectors + 1 + k)
    (fun _ st => Main.sphereSectorStep numStacks i st) n
    (obj, i * (sectors + 1), i * (sectors + 1) + sectors + 1) ?_ ?_
  · simp [blocks]
  · intro j _ st hst
    obtain ⟨h1, h2, h3, h4⟩ := hst
    have e : i * (sectors + 1) + sectors + 1 + j = i * (sectors + 1) + j + sectors + 1 := by
      omega
    refine ⟨?_, ?_, ?_, ?_⟩
    · unfold Main.sphereSectorStep
      simp only []
      split_ifs <;> exact h1
    · have hstep : (Main.sphereSectorStep numStacks i st).1.indices =
          st.1.indices ++ sphereCellIndices sectors numStacks i j := by
        unfold Main.sphereSectorStep sphereCellIndices
        simp only [h3, h4, e]
        split_ifs <;> simp
      rw [hstep, h2, List.append_assoc]
      rfl
    · simp only [Main.sphereSectorStep, h3]
      omega
    · simp only [Main.sphereSectorStep, h4]
      omega

omit [LinearOrderedField K] in
theorem Main.sphereStackIndices_fields (sectors numStacks i : Nat) (obj : GameObject K) :
    (Main.sphereStackIndices sectors numStacks i obj).vertices = obj.vertices
    ∧ (Main.sphereStackIndices sectors numStacks i obj).indices =
        obj.indices ++ blocks (fun j => sphereCellIndices sectors numStacks i j) sectors := by
  have h := Main.sector_loop sectors numStacks i sectors obj
  exact ⟨h.1, h.2.1⟩

theorem Main.sphereStackVertices_fields (pi : K) (cosf sinf : K → K)
    (radius sectorStep stackStep : K) (sectors i : Nat) (obj : GameObject K) :
    (Main.sphereStackVertices pi cosf sinf radius sectorStep stackStep sectors i
        obj).vertices =
      obj.vertices ++ blocks (fun j =>
        [(⟨radius * cosf (pi / 2 - (i : K) * stackStep) * cosf ((j : K) * sectorStep),
           radius * cosf (pi / 2 - (i : K) * stackStep) * sinf ((j : K) * sectorStep),
           radius * sinf (pi / 2 - (i : K) * stackStep)⟩ : Vec3 K)]) (sectors + 1)
    ∧ (Main.sphereStackVertices pi cosf sinf radius sectorStep stackStep sectors i
        obj).indices = obj.indices := by
  unfold Main.sphereStackVertices
  constructor
  · exact forLoop_proj_append GameObject.vertices _ _ (fun _ _ => rfl) (sectors + 1) obj
  · exact forLoop_proj_const GameObject.indices
      (fun j obj => Main.pushSphereVertex cosf sinf sectorStep
        (radius * cosf (pi / 2 - (i : K) * stackStep))
        (radius * sinf (pi / 2 - (i : K) * stackStep)) j obj)
      (fun _ _ => rfl) (sectors + 1) obj

theorem Main.generateSphere_fields (pi : K) (cosf sinf : K → K) (obj : GameObject K)
    (radius : K) (sectors numStacks : Nat) :
    (Main.generateSphere pi cosf sinf obj radius sectors numStacks).vertices =
        blocks (fun i => blocks (fun j =>
          [(⟨radius * cosf (pi / 2 - (i : K) * (pi / (numStacks : K)))
              * cosf ((j : K) * (2 * pi / (sectors : K))),
             radius * cosf (pi / 2 - (i : K) * (pi / (numStacks : K)))
              * sinf ((j : K) * (2 * pi / (sectors : K))),
             radius * sinf (pi / 2 - (i : K) * (pi / (numStacks : K)))⟩ : Vec3 K)])
          (sectors + 1)) (numStacks + 1)
    ∧ (Main.generateSphere pi cosf sinf obj radius sectors numStacks).indices =
        blocks (fun i => blocks (fun j => sphereCellIndices sectors numStacks i j) sectors)
          numStacks := by
  unfold Main.generateSphere
  simp only []
  constructor
  · rw [forLoop_proj_const GameObject.vertices
      (fun i obj => Main.sphereStackIndices sectors numStacks i obj)
      (fun i o => (Main.sphereStackIndices_fields sectors numStacks i o).1),
      forLoop_proj_append GameObject.vertices _ _ (fun i o =>
        (Main.sphereStackVertices_fields pi cosf sinf radius (2 * pi / (sectors : K))
          (pi / (numStacks : K)) sectors i o).1)]
    rfl
  · rw [forLoop_proj_append GameObject.indices
      (fun i obj => Main.sphereStackIndices sectors numStacks i obj) _
      (fun i o => (Main.sphereStackIndices_fields sectors numStacks i o).2),
      forLoop_proj_const GameObject.indices _ (fun i o =>
        (Main.sphereStackVertices_fields pi cosf sinf radius (2 * pi / (sectors : K))
          (pi / (numStacks : K)) sectors i o).2)]
    rfl

omit [LinearOrderedField K] in
theorem length_blocks {α : Type} (g : Nat → List α) (n : Nat) :
    (blocks g n).length = ∑ k in Finset.range n, (g k).length := by
  induction n with
  | zero => rfl
  | succ n ih => rw [blocks, List.length_append, ih, Finset.sum_range_succ]

omit [LinearOrderedField K] in
theorem sphereCellIndices_length (sectors numStacks i j : Nat) :
    (sphereCellIndices sectors numStacks i j).length =
      (if i ≠ 0 then 3 else 0) + (if i ≠ numStacks - 1 then 3 else 0) := by
  unfold sphereCellIndices
  split_ifs <;> rfl

omit [LinearOrderedField K] in
theorem sphere_stack_length (sectors numStacks i : Nat) :
    (blocks (fun j => sphereCellIndices sectors numStacks i j) sectors).length =
      sectors * ((if i ≠ 0 then 3 else 0) + (if i ≠ numStacks - 1 then 3 else 0)) :=
  blocks_length _ _ (fun j => sphereCellIndices_length sectors numStacks i j) sectors

omit [LinearOrderedField K] in
theorem sum_skip_one (n m : Nat) :
    (∑ i in Finset.range n, if i ≠ m then 3 else 0) = 3 * (n - if m < n then 1 else 0) := by
  induction n with
  | zero => simp
  | succ n ih =>
    rw [Finset.sum_range_succ, ih]
    split_ifs <;> omega

omit [LinearOrderedField K] in
theorem sphereCellIndices_lt (sectors numStacks i j k : Nat) (hi : i < numStacks)
    (hj : j < sectors) (hk : k ∈ sphereCellIndices sectors numStacks i j) :
    k < (numStacks + 1) * (sectors + 1) := by
  have h1 : (i + 1) * (sectors + 1) ≤ numStacks * (sectors + 1) :=
    Nat.mul_le_mul_right _ hi
  have h2 : (numStacks + 1) * (sectors + 1) = numStacks * (sectors + 1) + (sectors + 1) :=
    Nat.succ_mul _ _
  have h3 : (i + 1) * (sectors + 1) = i * (sectors + 1) + (sectors + 1) := Nat.succ_mul _ _
  unfold sphereCellIndices at hk
  rw [List.mem_append] at hk
  rcases hk with hk | hk
  · split_ifs at hk
    · simp only [List.mem_cons, List.mem_singleton, List.not_mem_nil, or_false] at hk
      omega
    · simp at hk
  · split_ifs at hk
    · simp only [List.mem_cons, List.mem_singleton, List.not_mem_nil, or_false] at hk
      omega
    · simp at hk

/-- C26. For `sectors ≥ 1` and `stacks ≥ 1`, `generateSphere` produces exactly
`(stacks+1)*(sectors+1)` vertices and exactly `6*sectors*(stacks-1)` indices, and every
index is below `(stacks+1)*(sectors+1)`. Stack `i` contributes, per sector, one triangle
when `i ≠ 0` and one when `i ≠ stacks-1`: with at least two stacks, one for the first and
for the last stack and two for every other. -/
theorem generateSphere_sizes (pi : K) (cosf sinf : K → K) (obj : GameObject K) (radius : K)
    (sectors numStacks : Nat) (_hsec : 1 ≤ sectors) (hst : 1 ≤ numStacks) :
    (Main.generateSphere pi cosf sinf obj radius sectors numStacks).vertices.length =
        (numStacks + 1) * (sectors + 1)
    ∧ (Main.generateSphere pi cosf sinf obj radius sectors numStacks).indices.length =
        6 * sectors * (numStacks - 1)
    ∧ (∀ k ∈ (Main.generateSphere pi cosf sinf obj radius sectors numStacks).indices,
        k < (numStacks + 1) * (sectors + 1))
    ∧ (Main.generateSphere pi cosf sinf obj radius sectors numStacks).indices =
        blocks (fun i => blocks (fun j => sphereCellIndices sectors numStacks i j) sectors)
          numStacks
    ∧ (∀ i, i < numStacks →
        (blocks (fun j => sphereCellIndices sectors numStacks i j) sectors).length =
          3 * sectors * ((if i ≠ 0 then 1 else 0) + (if i ≠ numStacks - 1 then 1 else 0)))
    ∧ (2 ≤ numStacks → ∀ i, i < numStacks →
        (blocks (fun j => sphereCellIndices sectors numStacks i j) sectors).length =
          if i = 0 ∨ i = numStacks - 1 then 3 * sectors else 6 * sectors) := by
  obtain ⟨hv, hx⟩ := Main.generateSphere_fields pi cosf sinf obj radius sectors numStacks
  refine ⟨?_, ?_, ?_, hx, ?_, ?_⟩
  · rw [hv, blocks_length _ (sectors + 1) (fun i => by rw [length_blocks]; simp)]
  · rw [hx, length_blocks]
    simp only [sphere_stack_length, Nat.mul_add, Finset.sum_add_distrib, ← Finset.mul_sum,
      sum_skip_one]
    have e1 : (if 0 < numStacks then 1 else 0) = 1 := if_pos (by omega)
    have e2 : (if numStacks - 1 < numStacks then 1 else 0) = 1 := if_pos (by omega)
    rw [e1, e2]
    ring
  · intro k hk
    rw [hx] at hk
    obtain ⟨i, hi, hk⟩ := (mem_blocks _ _ _).mp hk
    obtain ⟨j, hj, hk⟩ := (mem_blocks _ _ _).mp hk
    exact sphereCellIndices_lt sectors numStacks i j k hi hj hk
  · intro i _
    rw [sphere_stack_length]
    split_ifs <;> omega
  · intro h2 i hi
    rw [sphere_stack_length]
    split_ifs <;> omega

/-- C10. With `selectedPoint` in `[0, 15]`, a move along an axis by `delta` adds
`delta` to that coordinate of `controlPoints[selectedPoint]`, leaves its other two
coordinates and the fifteen other control points as they were, leaves `selectedPoint`
and `tessellation` as they were, and sets `needsUpdate`; after the commit that follows,
`needsUpdate` is false and the control points are those of the move. -/
theorem moveSelected_effect (sqrt : K → K) (s : PatchState K) (a : Axis) (delta : K)
    (hs : s.selectedPoint < 16) :
    ((moveSelected a delta s).controlPoints ⟨s.selectedPoint, hs⟩).coord a =
        (s.controlPoints ⟨s.selectedPoint, hs⟩).coord a + delta
    ∧ (∀ b : Axis, b ≠ a →
        ((moveSelected a delta s).controlPoints ⟨s.selectedPoint, hs⟩).coord b =
          (s.controlPoints ⟨s.selectedPoint, hs⟩).coord b)
    ∧ (∀ k : Fin 16, k.val ≠ s.selectedPoint →
        (moveSelected a delta s).controlPoints k = s.controlPoints k)
    ∧ (moveSelected a delta s).selectedPoint = s.selectedPoint
    ∧ (moveSelected a delta s).tessellation = s.tessellation
    ∧ (moveSelected a delta s).needsUpdate = true
    ∧ (commitIfDirty sqrt (moveSelected a delta s)).needsUpdate = false
    ∧ (commitIfDirty sqrt (moveSelected a delta s)).controlPoints =
        (moveSelected a delta s).controlPoints := by
  refine ⟨?_, ?_, ?_, rfl, rfl, rfl, ?_, ?_⟩
  · cases a <;> simp [moveSelected, translateSelected, Vec3.bump, Vec3.coord]
  · intro b hb
    cases a <;> cases b <;>
      first
        | exact absurd rfl hb
        | simp [moveSelected, translateSelected, Vec3.bump, Vec3.coord]
  · intro k hk
    simp [moveSelected, translateSelected, hk]
  · simp [commitIfDirty, moveSelected]
  · simp [commitIfDirty, moveSelected]

end Lemmas

/-- C4 (as stated) fails on the initial grid: there `evaluateBezier(1, 0)` is
`controlPoints[12] = (0, 6, 0.3)`, not `controlPoints[3] = (6, 0, 0)`. -/
theorem evaluateBezier_corners_as_stated_fails :
    ¬ (evaluateBezier (defaultControlPoints ℚ) 0 0 = defaultControlPoints ℚ 0
        ∧ evaluateBezier (defaultControlPoints ℚ) 1 0 = defaultControlPoints ℚ 3
        ∧ evaluateBezier (defaultControlPoints ℚ) 0 1 = defaultControlPoints ℚ 12
        ∧ evaluateBezier (defaultControlPoints ℚ) 1 1 = defaultControlPoints ℚ 15) := by
  intro h
  have h1 := h.2.1
  rw [evaluateBezier_one_zero] at h1
  have h2 : (defaultControlPoints ℚ 12).x = (defaultControlPoints ℚ 3).x := by rw [h1]
  have h3 : (defaultControlPoints ℚ 12).x = 0.0 := rfl
  have h4 : (defaultControlPoints ℚ 3).x = 6.0 := rfl
  rw [h3, h4] at h2
  norm_num at h2


/-- C9 (the code at a flat patch). With all sixteen control points at the origin and
level 1, both face normals are `normalize` of the zero vector, a division by a zero
length: the four normals that `generatePatch` outputs are NaN, neither zero nor of unit
length. -/
theorem generatePatch_flat_normals_nan :
    (generatePatch Real.sqrt (fun _ => (0 : Vec3 ℝ)) 1).normals =
      [FVec.nan, FVec.nan, FVec.nan, FVec.nan] := by
  have hv : ∀ u v : ℝ, evaluateBezier (fun _ => (0 : Vec3 ℝ)) u v = 0 := by
    intro u v
    rw [evaluateBezier_unroll]
    apply Vec3.ext3 <;> simp
  have hc : cross ((0 : Vec3 ℝ) - 0) ((0 : Vec3 ℝ) - 0) = 0 := by
    apply Vec3.ext3 <;> simp [cross]
  have hn : normalize Real.sqrt (0 : Vec3 ℝ) = FVec.nan := by
    simp [normalize, dot]
  simp [generatePatch, accumulatePatch, forLoop, pushVertex, cellStep, Mesh.addNormal,
    Mesh.vertex, hv, hc, hn, FVec.nan_add, FVec.add_nan, finalNormalize]

/-- C12 (as stated) fails: in the clean state that the first frame leaves (no key
down), a right arrow or a left arrow sets `needsUpdate`, and a frame with the right
arrow alone calls `generatePatch`. -/
theorem select_keeps_clean_fails :
    (processInput Real.sqrt noKeys (startState Real.sqrt)).needsUpdate = false
    ∧ (selectNext true (processInput Real.sqrt noKeys (startState Real.sqrt))).needsUpdate
        = true
    ∧ (selectPrevious true
        (processInput Real.sqrt noKeys (startState Real.sqrt))).needsUpdate = true
    ∧ generatePatchCalls { noKeys with right := true }
        (processInput Real.sqrt noKeys (startState Real.sqrt)) = 1 := by
  have hs : processInput Real.sqrt noKeys (startState Real.sqrt) =
      { startState Real.sqrt with needsUpdate := false } := by
    simp [processInput, selectPrevious, selectNext, movePoint, tessellationUp,
      tessellationDown, commitIfDirty, noKeys, startState, initialState]
  rw [hs]
  refine ⟨rfl, ?_, ?_, ?_⟩
  · simp [selectNext, startState, initialState]
  · simp [selectPrevious, startState, initialState]
  · simp [generatePatchCalls, frameInput, selectPrevious, selectNext, movePoint,
      tessellationUp, tessellationDown, noKeys, startState, initialState]

/-- C14 (as stated) fails: in a clean state at level 50 a firing `=` leaves the level at
50 and sets `needsUpdate`; in a clean state at level 1 a firing `-` leaves the level at
1 and sets `needsUpdate`. -/
theorem tessellation_unchanged_keeps_clean_fails :
    (commitIfDirty Real.sqrt { initialState ℝ with tessellation := 50 }).needsUpdate = false
    ∧ (commitIfDirty Real.sqrt { initialState ℝ with tessellation := 50 }).tessellation = 50
    ∧ (tessellationUp true
        (commitIfDirty Real.sqrt { initialState ℝ with tessellation := 50 })).tessellation
        = 50
    ∧ (tessellationUp true
        (commitIfDirty Real.sqrt { initialState ℝ with tessellation := 50 })).needsUpdate
        = true
    ∧ (commitIfDirty Real.sqrt { initialState ℝ with tessellation := 1 }).needsUpdate = false
    ∧ (tessellationDown true
        (commitIfDirty Real.sqrt { initialState ℝ with tessellation := 1 })).tessellation
        = 1
    ∧ (tessellationDown true
        (commitIfDirty Real.sqrt { initialState ℝ with tessellation := 1 })).needsUpdate
        = true := by
  simp [commitIfDirty, tessellationUp, tessellationDown, initialState]

/-! ### The program in binary32 -/

/-- With enough fuel `log2Fuel` brackets `n` between two consecutive powers of two. -/
theorem log2Fuel_spec (fuel : Nat) : ∀ n : Nat, 0 < n → n ≤ fuel →
    2 ^ log2Fuel fuel n ≤ n ∧ n < 2 ^ (log2Fuel fuel n + 1) := by
  induction fuel with
  | zero => intro n h0 h; omega
  | succ fuel ih =>
    intro n h0 h
    unfold log2Fuel
    split_ifs with h2
    · have h1 : n = 1 := by omega
      subst h1
      simp
    · obtain ⟨ha, hb⟩ := ih (n / 2) (by omega) (by omega)
      rw [pow_succ, pow_succ]
      rw [pow_succ] at hb
      constructor <;> omega

/-- `ilog2 n` is the integer binary logarithm: `2 ^ ilog2 n ≤ n < 2 ^ (ilog2 n + 1)`. -/
theorem ilog2_spec (n : Nat) (h : 0 < n) : 2 ^ ilog2 n ≤ n ∧ n < 2 ^ (ilog2 n + 1) :=
  log2Fuel_spec n n h le_rfl

/-- The constant `0.1f` is `13421773 / 2 ^ 27` (bit pattern `0x3DCCCCCD`) and the
constant `0.1` is `3602879701896397 / 2 ^ 55`. -/
theorem f32_f64_one_tenth :
    f32 (1 / 10) = 13421773 / 2 ^ 27 ∧ f64 (1 / 10) = 3602879701896397 / 2 ^ 55 := by
  decide!

/-- Rounding is to nearest, a tie goes to the even significand, on either sign; a
`float` is a fixed point of `f32`. -/
theorem f32_ties_to_even :
    f32 (1 + 1 / 2 ^ 25) = 1 ∧ f32 (1 + 1 / 2 ^ 24) = 1
    ∧ f32 (1 + 3 / 2 ^ 25) = 1 + 1 / 2 ^ 23 ∧ f32 (1 + 3 / 2 ^ 24) = 1 + 1 / 2 ^ 22
    ∧ f32 (-(1 + 3 / 2 ^ 24)) = -(1 + 1 / 2 ^ 22) ∧ f32 (2 - 1 / 2 ^ 25) = 2
    ∧ f32 (f32 (1 / 10)) = f32 (1 / 10) ∧ f32 6 = 6 := by
  decide!

/-- C23 (as stated, for the values the program computes). On the initial grid every
control point has `x ≤ 6`, and vertex `43 = 3 * 11 + 10` of the mesh of level 10,
the value of `evaluateBezier` at `u = 3 / 10.0f` in `[0, 1]` and `v = 1`, has
`x = 12582913 / 2 ^ 21 > 6`: the rounded sum leaves the hull of the control points. -/
theorem convex_hull_bound_fails_in_binary32 :
    (∀ k : Fin 16, (Rounded.controlPoints k).x ≤ 6)
    ∧ (0 ≤ f32 (f32 3 / f32 10) ∧ f32 (f32 3 / f32 10) ≤ 1)
    ∧ (Rounded.patchVertices Rounded.controlPoints 10).getD (3 * (10 + 1) + 10) 0
        = Rounded.evaluateBezier Rounded.controlPoints (f32 (f32 3 / f32 10)) 1
    ∧ ((Rounded.patchVertices Rounded.controlPoints 10).getD (3 * (10 + 1) + 10) 0).x
        = 12582913 / 2 ^ 21
    ∧ 6 < ((Rounded.patchVertices Rounded.controlPoints 10).getD (3 * (10 + 1) + 10) 0).x := by
  decide!

/-- C24 (as stated, for the values the program computes). From the initial grid, key
`I` on point `0 = 4 * 0 + 0` adds `moveStep = 0.1f` to `controlPoints[0].y`. At level
10 vertex `108 = 9 * 11 + 9` is the same vector before and after, although
`delta * B(0, u) * B(0, v)` is positive, both with the rounded `B` at the rounded
parameters and with the exact `B` at `9 / 10`: the increment is lost in the `float`
sum. -/
theorem edit_locality_fails_in_binary32 :
    (Rounded.translateSelected Axis.y Rounded.moveStep 0 Rounded.controlPoints 0).y
        - (Rounded.controlPoints 0).y = Rounded.moveStep
    ∧ (Rounded.patchVertices
          (Rounded.translateSelected Axis.y Rounded.moveStep 0 Rounded.controlPoints) 10).getD
          (9 * (10 + 1) + 9) 0
        = (Rounded.patchVertices Rounded.controlPoints 10).getD (9 * (10 + 1) + 9) 0
    ∧ (Rounded.patchVertices Rounded.controlPoints 10).getD (9 * (10 + 1) + 9) 0
        = Rounded.evaluateBezier Rounded.controlPoints (f32 (f32 9 / f32 10))
            (f32 (f32 9 / f32 10))
    ∧ 0 < Rounded.moveStep * Rounded.B 0 (f32 (f32 9 / f32 10))
        * Rounded.B 0 (f32 (f32 9 / f32 10))
    ∧ 0 < Rounded.moveStep * B 0 ((9 : ℚ) / 10) * B 0 ((9 : ℚ) / 10) := by
  decide!

/-- C25 (as stated, for the values the program computes). The two programs start from
the same grid of `float` values, and at level 12 (the level of `main.cpp`) vertex
`1 = 0 * 13 + 1` has `x = 1 / 2` in `generateTexturedBezierPatch` and
`x = 8388609 / 2 ^ 24` in `generatePatch`: `main.cpp` rounds `powf` and both products
of `B` to `float`, `task1.cpp` computes them in `double` and rounds once. -/
theorem textured_patch_differs_in_binary32 :
    (∀ k : Fin 16, Rounded.Main.controlPoints k = Rounded.controlPoints k)
    ∧ ((Rounded.Main.patchVertices Rounded.Main.controlPoints 12).getD (0 * (12 + 1) + 1) 0).x
        = 1 / 2
    ∧ ((Rounded.patchVertices Rounded.controlPoints 12).getD (0 * (12 + 1) + 1) 0).x
        = 8388609 / 2 ^ 24
    ∧ (Rounded.Main.patchVertices Rounded.Main.controlPoints 12).getD (0 * (12 + 1) + 1) 0
        ≠ (Rounded.patchVertices Rounded.controlPoints 12).getD (0 * (12 + 1) + 1) 0 := by
  decide!

/-! ### Instances at concrete inputs -/

theorem generatePatch_sizes_witness :
    1 ≤ 10
    ∧ (generatePatch Real.sqrt (defaultControlPoints ℝ) 10).vertices.length = (10 + 1) ^ 2
    ∧ (generatePatch Real.sqrt (defaultControlPoints ℝ) 10).normals.length = (10 + 1) ^ 2
    ∧ (generatePatch Real.sqrt (defaultControlPoints ℝ) 10).indices.length = 6 * 10 ^ 2
    ∧ ∀ k ∈ (generatePatch Real.sqrt (defaultControlPoints ℝ) 10).indices,
        0 ≤ k ∧ k < (10 + 1) ^ 2 :=
  ⟨by decide, generatePatch_sizes Real.sqrt (defaultControlPoints ℝ) 10 (by decide)⟩

theorem generatePatch_vertex_at_witness :
    1 ≤ 2 ∧ 1 ≤ 2 ∧ 2 ≤ 2
    ∧ (generatePatch Real.sqrt (defaultControlPoints ℝ) 2).vertices[1 * (2 + 1) + 2]? =
        some (evaluateBezier (defaultControlPoints ℝ) (((1 : ℕ) : ℝ) / ((2 : ℕ) : ℝ))
          (((2 : ℕ) : ℝ) / ((2 : ℕ) : ℝ))) :=
  ⟨by decide, by decide, by decide,
    generatePatch_vertex_at Real.sqrt (defaultControlPoints ℝ) 2 (by decide) 1 2
      (by decide) (by decide)⟩

theorem generatePatch_cell_indices_witness :
    1 ≤ 2 ∧ 1 < 2 ∧ 1 < 2
    ∧ (((generatePatch Real.sqrt (defaultControlPoints ℝ) 2).indices.drop
          (6 * (1 * 2 + 1))).take 6 =
        [1 * (2 + 1) + 1, 1 * (2 + 1) + 1 + 1, 1 * (2 + 1) + 1 + 2 + 1,
         1 * (2 + 1) + 1 + 1, 1 * (2 + 1) + 1 + 2 + 2, 1 * (2 + 1) + 1 + 2 + 1])
    ∧ (generatePatch Real.sqrt (defaultControlPoints ℝ) 1).indices = [0, 1, 2, 1, 3, 2]
    ∧ (generatePatch Real.sqrt (defaultControlPoints ℝ) 1).vertices.length = 4 :=
  ⟨by decide, by decide, by decide,
    generatePatch_cell_indices Real.sqrt (defaultControlPoints ℝ) 2 (by decide) 1 1
      (by decide) (by decide)⟩

theorem defaultControlPoints_level_one_nondegenerate :
    ∀ t ∈ trianglesOf (generatePatch Real.sqrt (defaultControlPoints ℝ) 1).indices,
      cross ((generatePatch Real.sqrt (defaultControlPoints ℝ) 1).vertex t.2.1
          - (generatePatch Real.sqrt (defaultControlPoints ℝ) 1).vertex t.1)
        ((generatePatch Real.sqrt (defaultControlPoints ℝ) 1).vertex t.2.2
          - (generatePatch Real.sqrt (defaultControlPoints ℝ) 1).vertex t.1) ≠ 0 := by
  have e0 : defaultControlPoints ℝ 0 = ⟨0.0, 0.0, 0.0⟩ := rfl
  have e3 : defaultControlPoints ℝ 3 = ⟨6.0, 0.0, 0.0⟩ := rfl
  have e12 : defaultControlPoints ℝ 12 = ⟨0.0, 6.0, 0.3⟩ := rfl
  have e15 : defaultControlPoints ℝ 15 = ⟨6.0, 6.0, -0.2⟩ := rfl
  intro t ht
  rw [generatePatch_one_indices] at ht
  simp only [trianglesOf, List.mem_cons, List.mem_singleton, List.not_mem_nil,
    or_false] at ht
  intro h
  have hz := congrArg Vec3.z h
  rcases ht with rfl | rfl
  · simp only [Mesh.vertex, generatePatch_one_vertices, e0, e3, e12, e15, cross] at hz
    norm_num at hz
  · simp only [Mesh.vertex, generatePatch_one_vertices, e0, e3, e12, e15, cross] at hz
    norm_num at hz

theorem generatePatch_normal_eq_sum_witness :
    (∀ x : ℝ, 0 < x → Real.sqrt x ≠ 0) ∧ 1 ≤ 1 ∧ 0 < (1 + 1) ^ 2
    ∧ ∃ s : Vec3 ℝ,
      (((trianglesOf (generatePatch Real.sqrt (defaultControlPoints ℝ) 1).indices).filter
          (hasVertex 0)).map
        (fun t => normalize Real.sqrt (cross
          ((generatePatch Real.sqrt (defaultControlPoints ℝ) 1).vertex t.2.1
            - (generatePatch Real.sqrt (defaultControlPoints ℝ) 1).vertex t.1)
          ((generatePatch Real.sqrt (defaultControlPoints ℝ) 1).vertex t.2.2
            - (generatePatch Real.sqrt (defaultControlPoints ℝ) 1).vertex t.1)))).sum
        = FVec.val s
      ∧ (accumulatePatch Real.sqrt (defaultControlPoints ℝ) 1).normals[0]? =
          some (FVec.val s)
      ∧ (generatePatch Real.sqrt (defaultControlPoints ℝ) 1).normals[0]? =
          some (if length Real.sqrt s > 0 then normalize Real.sqrt s else FVec.val s) :=
  ⟨fun _ hx => (Real.sqrt_pos.mpr hx).ne', by decide, by decide,
    generatePatch_normal_eq_sum Real.sqrt (fun _ hx => (Real.sqrt_pos.mpr hx).ne')
      (defaultControlPoints ℝ) 1 (by decide) defaultControlPoints_level_one_nondegenerate
      0 (by decide)⟩

theorem moveSelected_effect_witness :
    ({ initialState ℝ with selectedPoint := 5 } : PatchState ℝ).selectedPoint < 16
    ∧ ((moveSelected Axis.y 1 { initialState ℝ with selectedPoint := 5 }).controlPoints
          ⟨5, by decide⟩).coord Axis.y =
        (({ initialState ℝ with selectedPoint := 5 } : PatchState ℝ).controlPoints
          ⟨5, by decide⟩).coord Axis.y + 1
    ∧ (∀ k : Fin 16, k.val ≠ 5 →
        (moveSelected Axis.y 1 { initialState ℝ with selectedPoint := 5 }).controlPoints k
          = (initialState ℝ).controlPoints k)
    ∧ (commitIfDirty Real.sqrt
        (moveSelected Axis.y 1 { initialState ℝ with selectedPoint := 5 })).needsUpdate
          = false :=
  have h := moveSelected_effect Real.sqrt { initialState ℝ with selectedPoint := 5 }
    Axis.y 1 (by decide)
  ⟨by decide, h.1, h.2.2.1, h.2.2.2.2.2.2.1⟩

theorem select_wraps_witness :
    ({ initialState ℝ with selectedPoint := 15 } : PatchState ℝ).leftPressedLast = false
    ∧ ({ initialState ℝ with selectedPoint := 15 } : PatchState ℝ).rightPressedLast = false
    ∧ ({ initialState ℝ with selectedPoint := 15 } : PatchState ℝ).selectedPoint < 16
    ∧ (selectNext true ({ initialState ℝ with selectedPoint := 15 } : PatchState ℝ)).selectedPoint
        = (15 + 1) % 16
    ∧ (selectPrevious true
        ({ initialState ℝ with selectedPoint := 15 } : PatchState ℝ)).selectedPoint
        = (15 + 15) % 16 :=
  have h := select_wraps ({ initialState ℝ with selectedPoint := 15 } : PatchState ℝ)
    rfl rfl (by decide)
  ⟨rfl, rfl, by decide, h.1, h.2.1⟩

theorem select_sets_needsUpdate_witness :
    (selectNext true ({ initialState ℝ with needsUpdate := false } : PatchState ℝ)).needsUpdate
        = true
    ∧ (selectNext true ({ initialState ℝ with needsUpdate := false, rightPressedLast := true }
        : PatchState ℝ)).needsUpdate = false
    ∧ (selectNext false ({ initialState ℝ with needsUpdate := false, rightPressedLast := true }
        : PatchState ℝ)).needsUpdate = false :=
  ⟨((select_sets_needsUpdate Real.sqrt true
      ({ initialState ℝ with needsUpdate := false } : PatchState ℝ)).1 ⟨rfl, rfl⟩).1,
   ((select_sets_needsUpdate Real.sqrt true
      ({ initialState ℝ with needsUpdate := false, rightPressedLast := true }
        : PatchState ℝ)).2.2.1 (by simp)).1,
   ((select_sets_needsUpdate Real.sqrt false
      ({ initialState ℝ with needsUpdate := false, rightPressedLast := true }
        : PatchState ℝ)).2.2.1 (by simp)).1⟩

theorem tessellation_clamped_witness :
    1 ≤ (initialState ℝ).tessellation ∧ (initialState ℝ).tessellation ≤ 50
    ∧ (initialState ℝ).plusPressedLast = false ∧ (initialState ℝ).minusPressedLast = false
    ∧ (tessellationUp true (initialState ℝ)).tessellation = min (10 + 1) 50
    ∧ 1 ≤ (tessellationDown true (initialState ℝ)).tessellation
    ∧ (tessellationDown true (initialState ℝ)).tessellation ≤ 50 :=
  have h := tessellation_clamped (initialState ℝ) (by decide) (by decide) rfl rfl
  ⟨by decide, by decide, rfl, rfl, h.1, h.2.2.2.2.1, h.2.2.2.2.2⟩

theorem tessellation_key_sets_needsUpdate_witness :
    ({ initialState ℝ with tessellation := 50, needsUpdate := false }
        : PatchState ℝ).plusPressedLast = false
    ∧ ({ initialState ℝ with tessellation := 50, needsUpdate := false }
        : PatchState ℝ).minusPressedLast = false
    ∧ (tessellationUp true ({ initialState ℝ with tessellation := 50, needsUpdate := false }
        : PatchState ℝ)).needsUpdate = true
    ∧ (tessellationUp true ({ initialState ℝ with tessellation := 50, needsUpdate := false }
        : PatchState ℝ)).tessellation = 50 :=
  have h := tessellation_key_sets_needsUpdate
    ({ initialState ℝ with tessellation := 50, needsUpdate := false } : PatchState ℝ) rfl rfl
  ⟨rfl, rfl, h.1, h.2.2.1 rfl⟩

theorem reachable_mesh_synchronised_witness :
    Reachable Real.sqrt (processInput Real.sqrt { noKeys with keyI := true }
      (startState Real.sqrt))
    ∧ (processInput Real.sqrt { noKeys with keyI := true } (startState Real.sqrt)).mesh =
        generatePatch Real.sqrt
          (processInput Real.sqrt { noKeys with keyI := true }
            (startState Real.sqrt)).controlPoints
          (processInput Real.sqrt { noKeys with keyI := true }
            (startState Real.sqrt)).tessellation :=
  ⟨Reachable.frame _ _ Reachable.start,
    reachable_mesh_synchronised Real.sqrt _ (Reachable.frame _ _ Reachable.start)⟩

theorem move_roundtrip_witness :
    MeshCurrent Real.sqrt ({ startState Real.sqrt with selectedPoint := 5 } : PatchState ℝ)
    ∧ (commitIfDirty Real.sqrt (moveSelected Axis.y (-1)
        (commitIfDirty Real.sqrt (moveSelected Axis.y 1
          ({ startState Real.sqrt with selectedPoint := 5 } : PatchState ℝ))))).controlPoints
        = (commitIfDirty Real.sqrt
            ({ startState Real.sqrt with selectedPoint := 5 } : PatchState ℝ)).controlPoints
    ∧ (commitIfDirty Real.sqrt (moveSelected Axis.y (-1)
        (commitIfDirty Real.sqrt (moveSelected Axis.y 1
          ({ startState Real.sqrt with selectedPoint := 5 } : PatchState ℝ))))).mesh
        = (commitIfDirty Real.sqrt
            ({ startState Real.sqrt with selectedPoint := 5 } : PatchState ℝ)).mesh :=
  have h := move_roundtrip Real.sqrt
    ({ startState Real.sqrt with selectedPoint := 5 } : PatchState ℝ) Axis.y 1 (Or.inl rfl)
  ⟨Or.inl rfl, h.1, h.2.1⟩

theorem generatePatch_first_last_vertex_witness :
    1 ≤ 10
    ∧ (generatePatch Real.sqrt (defaultControlPoints ℝ) 10).vertices[0]? =
        some ⟨0.0, 0.0, 0.0⟩
    ∧ (generatePatch Real.sqrt (defaultControlPoints ℝ) 10).vertices[120]? =
        some ⟨6.0, 6.0, -0.2⟩ :=
  have h := generatePatch_first_last_vertex Real.sqrt (defaultControlPoints ℝ) 10
    (by decide)
  ⟨by decide, h.1, h.2⟩

theorem triangles_around_vertex_witness :
    1 ≤ 2 ∧ 1 ≤ 2 ∧ 1 ≤ 2
    ∧ (trianglesOf (generatePatch Real.sqrt (defaultControlPoints ℝ) 2).indices).countP
        (hasVertex (1 * (2 + 1) + 1)) = 6
    ∧ (trianglesOf (generatePatch Real.sqrt (defaultControlPoints ℝ) 2).indices).countP
        (hasVertex (0 * (2 + 1) + 2)) = 2 :=
  have h := triangles_around_vertex Real.sqrt (defaultControlPoints ℝ) 2 (by decide) 1 1
    (by decide) (by decide)
  have h2 := triangles_around_vertex Real.sqrt (defaultControlPoints ℝ) 2 (by decide) 0 2
    (by decide) (by decide)
  ⟨by decide, by decide, by decide, h.1 (by decide), h2.2.2.2.1 (Or.inl (by decide))⟩

theorem consistent_winding_witness :
    1 ≤ 2
    ∧ ∀ t ∈ trianglesOf (generatePatch Real.sqrt (defaultControlPoints ℝ) 2).indices,
        signedArea2 2 t = -1 :=
  ⟨by decide, (consistent_winding Real.sqrt (defaultControlPoints ℝ) 2 (by decide)).2.2⟩

theorem reachable_state_bounds_witness :
    CommandReachable Real.sqrt (tessellationDown true (selectPrevious true (initialState ℝ)))
    ∧ (tessellationDown true (selectPrevious true (initialState ℝ))).selectedPoint < 16
    ∧ 1 ≤ (tessellationDown true (selectPrevious true (initialState ℝ))).tessellation
    ∧ (tessellationDown true (selectPrevious true (initialState ℝ))).tessellation ≤ 50 :=
  have hr : CommandReachable Real.sqrt
      (tessellationDown true (selectPrevious true (initialState ℝ))) :=
    CommandReachable.tessellationDown _ _
      (CommandReachable.selectPrevious _ _ CommandReachable.init)
  have h := reachable_state_bounds Real.sqrt _ hr
  ⟨hr, h.1.2, h.2.1.1, h.2.1.2⟩

theorem convex_hull_bound_witness :
    (0 : ℝ) ≤ 1 / 2 ∧ (1 / 2 : ℝ) ≤ 1 ∧ 1 ≤ 10
    ∧ (Finset.univ.inf' Finset.univ_nonempty
          (fun k => (defaultControlPoints ℝ k).coord Axis.z)
        ≤ (evaluateBezier (defaultControlPoints ℝ) (1 / 2) (1 / 2)).coord Axis.z
      ∧ (evaluateBezier (defaultControlPoints ℝ) (1 / 2) (1 / 2)).coord Axis.z
        ≤ Finset.univ.sup' Finset.univ_nonempty
          (fun k => (defaultControlPoints ℝ k).coord Axis.z))
    ∧ ∀ p ∈ (generatePatch Real.sqrt (defaultControlPoints ℝ) 10).vertices,
        Finset.univ.inf' Finset.univ_nonempty
            (fun k => (defaultControlPoints ℝ k).coord Axis.z) ≤ p.coord Axis.z
        ∧ p.coord Axis.z ≤ Finset.univ.sup' Finset.univ_nonempty
            (fun k => (defaultControlPoints ℝ k).coord Axis.z) :=
  have h0 : (0 : ℝ) ≤ 1 / 2 := by norm_num
  have h1 : (1 / 2 : ℝ) ≤ 1 := by norm_num
  have h := convex_hull_bound Real.sqrt (defaultControlPoints ℝ) Axis.z (1 / 2) (1 / 2)
    (1 / 2) h0 h1 h0 h1 h0 h1 10 (by decide)
  ⟨h0, h1, by decide, h.2.1, h.2.2⟩

theorem edit_locality_witness :
    ({ startState Real.sqrt with selectedPoint := 5 } : PatchState ℝ).selectedPoint
      = 4 * 1 + 1
    ∧ ∃ p q : Vec3 ℝ,
      (generatePatch Real.sqrt (defaultControlPoints ℝ) 10).vertices[5 * (10 + 1) + 5]?
        = some p
      ∧ (commitIfDirty Real.sqrt (moveSelected Axis.y 1
          ({ startState Real.sqrt with selectedPoint := 5 } : PatchState ℝ))).mesh.vertices[
            5 * (10 + 1) + 5]? = some q
      ∧ q.coord Axis.y = p.coord Axis.y
          + 1 * B 1 (((5 : ℕ) : ℝ) / ((10 : ℕ) : ℝ)) * B 1 (((5 : ℕ) : ℝ) / ((10 : ℕ) : ℝ))
      ∧ q.coord Axis.x = p.coord Axis.x
      ∧ q.coord Axis.z = p.coord Axis.z := by
  obtain ⟨p, q, hp, hq, hc, _, _⟩ := edit_locality Real.sqrt
    ({ startState Real.sqrt with selectedPoint := 5 } : PatchState ℝ) 1 1 (by decide)
    (by decide) rfl Axis.y 1 (by decide) 5 5 (by decide) (by decide)
  refine ⟨rfl, p, q, hp, hq, ?_, ?_, ?_⟩
  · have h := hc Axis.y
    rw [if_pos rfl] at h
    exact h
  · have h := hc Axis.x
    rw [if_neg (by decide), add_zero] at h
    exact h
  · have h := hc Axis.z
    rw [if_neg (by decide), add_zero] at h
    exact h

theorem textured_patch_equivalent_witness :
    1 ≤ 12 ∧ 3 ≤ 12 ∧ 4 ≤ 12
    ∧ (Main.generateTexturedBezierPatch (defaultControlPoints ℝ) ⟨[], [], [], 12⟩).vertices =
        (generatePatch Real.sqrt (defaultControlPoints ℝ) 12).vertices
    ∧ (Main.generateTexturedBezierPatch (defaultControlPoints ℝ) ⟨[], [], [], 12⟩).indices =
        (generatePatch Real.sqrt (defaultControlPoints ℝ) 12).indices
    ∧ (Main.generateTexturedBezierPatch (defaultControlPoints ℝ)
          ⟨[], [], [], 12⟩).texCoords[3 * (12 + 1) + 4]? =
        some (((3 : ℕ) : ℝ) / ((12 : ℕ) : ℝ), ((4 : ℕ) : ℝ) / ((12 : ℕ) : ℝ)) :=
  have h := textured_patch_equivalent Real.sqrt (defaultControlPoints ℝ) ⟨[], [], [], 12⟩
    (by decide) 3 4 (by decide) (by decide)
  ⟨by decide, by decide, by decide, h.1, h.2.1, h.2.2.2⟩

theorem generateSphere_sizes_witness :
    1 ≤ 36 ∧ 1 ≤ 18
    ∧ (Main.generateSphere Real.pi Real.cos Real.sin ⟨[], []⟩ 1 36 18).vertices.length =
        (18 + 1) * (36 + 1)
    ∧ (Main.generateSphere Real.pi Real.cos Real.sin ⟨[], []⟩ 1 36 18).indices.length =
        6 * 36 * (18 - 1)
    ∧ ∀ k ∈ (Main.generateSphere Real.pi Real.cos Real.sin ⟨[], []⟩ 1 36 18).indices,
        k < (18 + 1) * (36 + 1) :=
  have h := generateSphere_sizes Real.pi Real.cos Real.sin ⟨[], []⟩ 1 36 18 (by decide)
    (by decide)
  ⟨by decide, by decide, h.1, h.2.1, h.2.2.1⟩

end BezierPatch
